import Mathlib

/-!
Verification development for the grammy-callbacks library (callback identity,
token codec, dispatcher, reply-keyboard correlation and wait protocol).

The TypeScript sources are shallowly embedded: pure functions become Lean
functions; mutation of the per-user session record becomes explicit state
passing; a JavaScript exception becomes an error constructor in the result
type.  Platform primitives that the code calls but does not define are
modelled explicitly:

* JSON.stringify / JSON.parse are modelled by an executable codec over a
  Json fragment (null, booleans, integers, strings, arrays) matching the
  stringify output format for strings without control characters; the
  round-trip of the codec is proved below.
* the MD5 digest (crypto.createHash('md5')) is an abstract parameter
  `md5Hex : String → String`; theorems that depend on its output shape take
  the `HexDigest32` contract (32 lowercase hex characters) as a hypothesis.
  `md5Model` is a concrete deterministic stand-in satisfying the contract,
  used to instantiate witnesses.
* object identity of the wait-state record (the source compares with ===)
  is modelled by an allocation tag carried next to the record.
-/

set_option maxRecDepth 16384

/-! ### Character and string helpers -/

/-- Decimal digit character test, by code point (48..57). -/
def isDigitChar (c : Char) : Bool := 48 ≤ c.toNat && c.toNat ≤ 57

/-- Lowercase hexadecimal digit test, by code point. -/
def isHexChar (c : Char) : Bool :=
  (48 ≤ c.toNat && c.toNat ≤ 57) || (97 ≤ c.toNat && c.toNat ≤ 102)

/-- Alphanumeric test ([A-Za-z0-9]), by code point. -/
def isAlnumChar (c : Char) : Bool :=
  (48 ≤ c.toNat && c.toNat ≤ 57) || (97 ≤ c.toNat && c.toNat ≤ 122) ||
    (65 ≤ c.toNat && c.toNat ≤ 90)

/-- Model of JavaScript String.prototype.toLowerCase (ASCII range). -/
def jsToLower (s : String) : String := ⟨s.data.map Char.toLower⟩

/-- Split a character list at the first occurrence of `c`: returns the part
before and the part after, or `none` when `c` does not occur. -/
def splitFirst (c : Char) : List Char → Option (List Char × List Char)
  | [] => none
  | x :: xs =>
    if x = c then some ([], xs)
    else
      match splitFirst c xs with
      | none => none
      | some (a, b) => some (x :: a, b)

/-- Model of JavaScript s.split(':', 2): the first component is the text up
to the first colon; the second is the text between the first and second
colons (or to the end), `none` when the string has no colon (the JS array
then has a single element and index 1 reads `undefined`). -/
def jsSplitColon2 (s : List Char) : List Char × Option (List Char) :=
  match splitFirst ':' s with
  | none => (s, none)
  | some (a, rest) =>
    match splitFirst ':' rest with
    | none => (a, some rest)
    | some (b, _) => (a, some b)

/-! ### The JSON value fragment and its codec

Arguments curried onto a callback are JavaScript values serialised with
JSON.stringify and recovered with JSON.parse.  The fragment modelled here is
null, booleans, integers, strings and arrays. -/

inductive Json where
  | null : Json
  | bool (b : Bool) : Json
  | num (n : Int) : Json
  | str (s : String) : Json
  | arr (elems : List Json) : Json

/-- JSON.stringify escapes the quote and backslash characters inside a
string; all other characters at or above code point 32 are emitted as-is. -/
def encChar (c : Char) : List Char :=
  if c = '"' then ['\\', '"'] else if c = '\\' then ['\\', '\\'] else [c]

/-- digitChar k is the decimal digit character for k % 10. -/
def digitChar (k : Nat) : Char := "0123456789".data.getD (k % 10) '0'

/-- Fuelled decimal rendering of a natural number (most significant digit
first); the fuel bounds the number of divisions by ten. -/
def natCharsGo : Nat → Nat → List Char
  | 0, _ => []
  | f + 1, n => if n < 10 then [digitChar n] else natCharsGo f (n / 10) ++ [digitChar (n % 10)]

/-- Decimal rendering of a natural number. -/
def natChars (n : Nat) : List Char := natCharsGo (n + 1) n

/-- Decimal rendering of an integer, as JSON.stringify renders number values
that are integral. -/
def intChars : Int → List Char
  | .ofNat n => natChars n
  | .negSucc m => '-' :: natChars (m + 1)

mutual

/-- Model of JSON.stringify on the Json fragment, as a character list. -/
def encJson : Json → List Char
  | .str s => '"' :: (s.data.flatMap encChar ++ ['"'])
  | .null => ['n', 'u', 'l', 'l']
  | .arr es => '[' :: (encItems es ++ [']'])
  | .bool true => ['t', 'r', 'u', 'e']
  | .num n => intChars n
  | .bool false => ['f', 'a', 'l', 's', 'e']

/-- Comma-separated rendering of array elements. -/
def encItems : List Json → List Char
  | [] => []
  | [j] => encJson j
  | j :: j2 :: js => encJson j ++ ',' :: encItems (j2 :: js)

end

/-- Model of JSON.stringify producing a string. -/
def jsonStringify (j : Json) : String := ⟨encJson j⟩

/-- Characters at or above code point 32 need no \\u escape, so on them the
modelled encoder agrees with JSON.stringify. -/
def wfChar (c : Char) : Bool := 32 ≤ c.toNat

mutual

/-- A Json value all of whose strings contain no control characters; on such
values the modelled codec is faithful to the platform's JSON.stringify. -/
def wfJson : Json → Bool
  | .null => true
  | .bool _ => true
  | .num _ => true
  | .str s => s.data.all wfChar
  | .arr es => wfItems es

/-- All elements well-formed. -/
def wfItems : List Json → Bool
  | [] => true
  | j :: js => wfJson j && wfItems js

end

/-- Inverse of the escape table used by the encoder (plus the other single
character escapes JSON.parse accepts). -/
def unescapeChar (c : Char) : Option Char :=
  if c = '"' then some '"'
  else if c = '\\' then some '\\'
  else if c = '/' then some '/'
  else if c = 'n' then some '\n'
  else if c = 't' then some '\t'
  else if c = 'r' then some '\r'
  else none

/-- Parse the body of a JSON string up to and including the closing quote,
returning the decoded characters and the remaining input. -/
def parseStrChars : List Char → Option (List Char × List Char)
  | [] => none
  | x :: xs =>
    if x = '"' then some ([], xs)
    else if x = '\\' then
      match xs with
      | [] => none
      | e :: ys =>
        match unescapeChar e with
        | none => none
        | some d =>
          match parseStrChars ys with
          | none => none
          | some (s, r) => some (d :: s, r)
    else
      match parseStrChars xs with
      | none => none
      | some (s, r) => some (x :: s, r)

/-- Longest decimal-digit run at the head of the input. -/
def spanDigits : List Char → List Char × List Char
  | [] => ([], [])
  | c :: cs =>
    if isDigitChar c then
      match spanDigits cs with
      | (ds, r) => (c :: ds, r)
    else ([], c :: cs)

/-- Numeric value of a list of decimal digit characters. -/
def digitsVal (ds : List Char) : Nat := ds.foldl (fun a c => a * 10 + (c.toNat - 48)) 0

mutual

/-- Fuelled recursive-descent parser for the Json fragment: the model of
JSON.parse on encoder output (the encoder emits no whitespace, so none is
skipped). -/
def parseJ : Nat → List Char → Option (Json × List Char)
  | 0, _ => none
  | _ + 1, [] => none
  | fuel + 1, c :: rest =>
    if c = 'n' then
      match rest with
      | 'u' :: 'l' :: 'l' :: r => some (.null, r)
      | _ => none
    else if c = 't' then
      match rest with
      | 'r' :: 'u' :: 'e' :: r => some (.bool true, r)
      | _ => none
    else if c = 'f' then
      match rest with
      | 'a' :: 'l' :: 's' :: 'e' :: r => some (.bool false, r)
      | _ => none
    else if c = '"' then
      match parseStrChars rest with
      | none => none
      | some (s, r) => some (.str ⟨s⟩, r)
    else if c = '[' then
      match rest with
      | ']' :: r => some (.arr [], r)
      | _ =>
        match parseItems fuel rest with
        | none => none
        | some (js, r) => some (.arr js, r)
    else if c = '-' then
      match spanDigits rest with
      | (ds, r) => if ds.isEmpty then none else some (.num (-(digitsVal ds : Int)), r)
    else if isDigitChar c then
      match spanDigits (c :: rest) with
      | (ds, r) => some (.num (digitsVal ds : Int), r)
    else none

/-- Parse one or more comma-separated elements followed by the closing
bracket, consuming it. -/
def parseItems : Nat → List Char → Option (List Json × List Char)
  | 0, _ => none
  | fuel + 1, cs =>
    match parseJ fuel cs with
    | none => none
    | some (j, rest) =>
      match rest with
      | ',' :: rest2 =>
        match parseItems fuel rest2 with
        | none => none
        | some (js, r) => some (j :: js, r)
      | ']' :: rest2 => some ([j], rest2)
      | _ => none

end

/-- Model of JSON.parse: run the fuelled parser with ample fuel and require
the whole input to be consumed; `none` models a thrown SyntaxError. -/
def parseJson (s : String) : Option Json :=
  match parseJ (s.data.length + 1) s.data with
  | some (j, []) => some j
  | _ => none

/-! ### Round-trip of the JSON codec -/

theorem digitChar_isDigit (k : Nat) : isDigitChar (digitChar k) = true := by
  unfold digitChar
  have h : k % 10 < 10 := Nat.mod_lt _ (by omega)
  generalize hm : k % 10 = m at h ⊢
  interval_cases m <;> decide

theorem digitChar_val (k : Nat) : (digitChar k).toNat - 48 = k % 10 := by
  unfold digitChar
  have h : k % 10 < 10 := Nat.mod_lt _ (by omega)
  generalize hm : k % 10 = m at h ⊢
  interval_cases m <;> decide

theorem natCharsGo_spec (f : Nat) : ∀ n : Nat, n < f →
    natCharsGo f n ≠ [] ∧ (∀ c ∈ natCharsGo f n, isDigitChar c = true) ∧
      digitsVal (natCharsGo f n) = n := by
  induction f with
  | zero => intro n h; omega
  | succ f ih =>
    intro n h
    by_cases h10 : n < 10
    · refine ⟨by simp [natCharsGo, h10], ?_, ?_⟩
      · intro c hc
        simp [natCharsGo, h10] at hc
        subst hc
        exact digitChar_isDigit n
      · have := digitChar_val n
        simp [natCharsGo, h10, digitsVal]
        omega
    · have hdiv : n / 10 < f := by
        have h1 : n / 10 < n := Nat.div_lt_self (by omega) (by omega)
        omega
      obtain ⟨hne, hdig, hval⟩ := ih (n / 10) hdiv
      have happ : digitsVal (natCharsGo f (n / 10) ++ [digitChar (n % 10)]) =
          10 * digitsVal (natCharsGo f (n / 10)) + ((digitChar (n % 10)).toNat - 48) := by
        simp [digitsVal, List.foldl_append]
        omega
      refine ⟨by simp [natCharsGo, h10], ?_, ?_⟩
      · intro c hc
        simp [natCharsGo, h10] at hc
        rcases hc with hc | hc
        · exact hdig c hc
        · subst hc; exact digitChar_isDigit _
      · simp only [natCharsGo, if_neg h10]
        rw [happ, hval, digitChar_val]
        have := Nat.div_add_mod n 10
        omega

theorem natChars_ne_nil (n : Nat) : natChars n ≠ [] :=
  (natCharsGo_spec (n + 1) n (by omega)).1

theorem natChars_digits (n : Nat) : ∀ c ∈ natChars n, isDigitChar c = true :=
  (natCharsGo_spec (n + 1) n (by omega)).2.1

theorem natChars_val (n : Nat) : digitsVal (natChars n) = n :=
  (natCharsGo_spec (n + 1) n (by omega)).2.2

/-- Head of the remaining input is not a digit (or input exhausted). -/
def headNotDigit : List Char → Bool
  | [] => true
  | c :: _ => !isDigitChar c

theorem spanDigits_append (ds : List Char) (hds : ∀ c ∈ ds, isDigitChar c = true) :
    ∀ rest : List Char, headNotDigit rest = true → spanDigits (ds ++ rest) = (ds, rest) := by
  induction ds with
  | nil =>
    intro rest hrest
    cases rest with
    | nil => rfl
    | cons c cs =>
      simp [headNotDigit] at hrest
      simp [spanDigits, hrest]
  | cons d ds ih =>
    intro rest hrest
    have hd : isDigitChar d = true := hds d (by simp)
    have := ih (fun c hc => hds c (by simp [hc])) rest hrest
    simp [spanDigits, hd, this]

theorem char_ne_of_toNat_ne {c d : Char} (h : c.toNat ≠ d.toNat) : c ≠ d :=
  fun he => h (he ▸ rfl)

theorem parseStr_enc (s : List Char) :
    ∀ rest : List Char, parseStrChars (s.flatMap encChar ++ '"' :: rest) = some (s, rest) := by
  induction s with
  | nil =>
    intro rest
    simp only [List.flatMap_nil, List.nil_append]
    unfold parseStrChars
    simp
  | cons c cs ih =>
    intro rest
    by_cases hq : c = '"'
    · subst hq
      simp only [List.flatMap_cons, encChar, if_pos rfl, List.cons_append, List.append_assoc]
      unfold parseStrChars
      simp [unescapeChar, ih rest]
    · by_cases hb : c = '\\'
      · subst hb
        simp only [List.flatMap_cons, encChar]
        norm_num
        unfold parseStrChars
        simp [unescapeChar, ih rest]
      · simp only [List.flatMap_cons, encChar, if_neg hq, if_neg hb, List.cons_append,
          List.singleton_append]
        unfold parseStrChars
        simp [hq, hb, ih rest]

theorem encJson_ne_nil (j : Json) : encJson j ≠ [] := by
  cases j with
  | null => simp [encJson]
  | bool b => cases b <;> simp [encJson]
  | num n =>
    cases n with
    | ofNat m => simpa [encJson, intChars] using natChars_ne_nil m
    | negSucc m => simp [encJson, intChars]
  | str s => simp [encJson]
  | arr es => simp [encJson]

theorem encJson_head_ne_rbracket (j : Json) (c : Char) (cs : List Char)
    (h : encJson j = c :: cs) : c ≠ ']' := by
  cases j with
  | null =>
    have h2 := congrArg List.head? h
    simp [encJson] at h2
    subst h2
    decide
  | bool b =>
    cases b <;>
    · have h2 := congrArg List.head? h
      simp [encJson] at h2
      subst h2
      decide
  | str s =>
    have h2 := congrArg List.head? h
    simp [encJson] at h2
    subst h2
    decide
  | arr es =>
    have h2 := congrArg List.head? h
    simp [encJson] at h2
    subst h2
    decide
  | num n =>
    cases n with
    | ofNat m =>
      have hd : isDigitChar c = true := by
        apply natChars_digits m
        have hmem : c ∈ c :: cs := List.mem_cons_self c cs
        rw [← h] at hmem
        simpa [encJson, intChars] using hmem
      intro he
      subst he
      exact absurd hd (by decide)
    | negSucc m =>
      have h2 := congrArg List.head? h
      simp [encJson, intChars] at h2
      subst h2
      decide

mutual

def sizeJ : Json → Nat
  | .null => 1
  | .bool _ => 1
  | .num _ => 1
  | .str _ => 1
  | .arr es => 1 + sizeItems es

def sizeItems : List Json → Nat
  | [] => 0
  | j :: js => 1 + sizeJ j + sizeItems js

end

theorem sizeJ_pos (j : Json) : 1 ≤ sizeJ j := by
  cases j <;> simp [sizeJ]

mutual

theorem sizeJ_le_len (j : Json) : sizeJ j ≤ (encJson j).length := by
  cases j with
  | null => simp [encJson, sizeJ]
  | bool b => cases b <;> simp [encJson, sizeJ]
  | num n =>
    have h : encJson (.num n) ≠ [] := encJson_ne_nil _
    have : 0 < (encJson (.num n)).length := List.length_pos.mpr h
    simpa [sizeJ] using this
  | str s => simp [encJson, sizeJ]
  | arr es =>
    have := sizeItems_le_len es
    simp [encJson, sizeJ]
    omega

theorem sizeItems_le_len (js : List Json) : sizeItems js ≤ (encItems js).length + 1 := by
  cases js with
  | nil => simp [encItems, sizeItems]
  | cons j js =>
    cases js with
    | nil =>
      have := sizeJ_le_len j
      simp [encItems, sizeItems, sizeJ]
      omega
    | cons j2 js2 =>
      have h1 := sizeJ_le_len j
      have h2 := sizeItems_le_len (j2 :: js2)
      have e1 : sizeItems (j :: j2 :: js2) = 1 + sizeJ j + sizeItems (j2 :: js2) := rfl
      have e2 : (encItems (j :: j2 :: js2)).length
          = (encJson j).length + 1 + (encItems (j2 :: js2)).length := by
        show (encJson j ++ ',' :: encItems (j2 :: js2)).length = _
        simp
        omega
      omega

end

theorem encItems_cons_head (j : Json) (js : List Json) (c : Char) (cs : List Char)
    (h : encJson j = c :: cs) : ∃ t, encItems (j :: js) = c :: t := by
  cases js with
  | nil => exact ⟨cs, by simp [encItems, h]⟩
  | cons j2 js2 => exact ⟨cs ++ ',' :: encItems (j2 :: js2), by simp [encItems, h]⟩

theorem parse_enc_main : ∀ N : Nat,
    (∀ j fuel rest, sizeJ j ≤ N → sizeJ j ≤ fuel → headNotDigit rest = true →
      parseJ fuel (encJson j ++ rest) = some (j, rest)) ∧
    (∀ js fuel rest, js ≠ [] → sizeItems js ≤ N → sizeItems js ≤ fuel →
      parseItems fuel (encItems js ++ ']' :: rest) = some (js, rest)) := by
  intro N
  induction N with
  | zero =>
    constructor
    · intro j fuel rest hN _ _
      have := sizeJ_pos j
      omega
    · intro js fuel rest hne hN _
      cases js with
      | nil => exact absurd rfl hne
      | cons j js =>
        have := sizeJ_pos j
        have h2 : sizeItems (j :: js) = 1 + sizeJ j + sizeItems js := rfl
        omega
  | succ N ih =>
    obtain ⟨ihJ, ihI⟩ := ih
    constructor
    · intro j fuel rest hN hfuel hrest
      cases fuel with
      | zero => have := sizeJ_pos j; omega
      | succ f =>
        cases j with
        | null => simp [encJson, parseJ]
        | bool b => cases b <;> simp [encJson, parseJ]
        | str s =>
          obtain ⟨d⟩ := s
          have hs := parseStr_enc d rest
          simp only [encJson, List.cons_append, List.append_assoc, List.singleton_append]
          simp [parseJ, hs]
        | num n =>
          cases n with
          | ofNat m =>
            have hspan : spanDigits (natChars m ++ rest) = (natChars m, rest) :=
              spanDigits_append _ (natChars_digits m) rest hrest
            cases hnc : natChars m with
            | nil => exact absurd hnc (natChars_ne_nil m)
            | cons c cs' =>
              have hcd : isDigitChar c = true := natChars_digits m c (by rw [hnc]; simp)
              have hv : digitsVal (natChars m) = m := natChars_val m
              rw [hnc] at hspan hv
              have hcn : (48 : Nat) ≤ c.toNat ∧ c.toNat ≤ 57 := by
                simp [isDigitChar] at hcd; omega
              have h1 : c ≠ 'n' := char_ne_of_toNat_ne (by simp; omega)
              have h2 : c ≠ 't' := char_ne_of_toNat_ne (by simp; omega)
              have h3 : c ≠ 'f' := char_ne_of_toNat_ne (by simp; omega)
              have h4 : c ≠ '"' := char_ne_of_toNat_ne (by simp; omega)
              have h5 : c ≠ '[' := char_ne_of_toNat_ne (by simp; omega)
              have h6 : c ≠ '-' := char_ne_of_toNat_ne (by simp; omega)
              simp only [encJson, intChars, hnc, List.cons_append]
              simp only [List.cons_append] at hspan
              simp [parseJ, h1, h2, h3, h4, h5, h6, hcd, hspan, hv]
          | negSucc m =>
            have hspan : spanDigits (natChars (m + 1) ++ rest) = (natChars (m + 1), rest) :=
              spanDigits_append _ (natChars_digits (m + 1)) rest hrest
            have hv : digitsVal (natChars (m + 1)) = m + 1 := natChars_val (m + 1)
            have hemp : (natChars (m + 1)).isEmpty = false := by
              cases hnc : natChars (m + 1) with
              | nil => exact absurd hnc (natChars_ne_nil (m + 1))
              | cons c cs' => simp
            simp only [encJson, intChars, List.cons_append]
            simp [parseJ, hspan, hemp, hv, Int.negSucc_eq]
        | arr es =>
          simp only [encJson, List.cons_append, List.append_assoc, List.singleton_append]
          cases es with
          | nil => simp [parseJ, encItems]
          | cons j js =>
            obtain ⟨c, cs', hc⟩ : ∃ c cs', encJson j = c :: cs' := by
              cases h : encJson j with
              | nil => exact absurd h (encJson_ne_nil j)
              | cons c cs' => exact ⟨c, cs', rfl⟩
            obtain ⟨t, ht⟩ := encItems_cons_head j js c cs' hc
            have hcne : c ≠ ']' := encJson_head_ne_rbracket j c cs' hc
            have harr : sizeJ (Json.arr (j :: js)) = 1 + sizeItems (j :: js) := rfl
            have hpi : parseItems f (encItems (j :: js) ++ ']' :: rest)
                = some (j :: js, rest) := by
              apply ihI (j :: js) f rest (by simp) (by omega) (by omega)
            rw [ht] at hpi ⊢
            simp only [List.cons_append] at hpi ⊢
            simp [parseJ, hcne, hpi]
    · intro js fuel rest hne hN hfuel
      cases js with
      | nil => exact absurd rfl hne
      | cons j js =>
        cases fuel with
        | zero =>
          have h1 := sizeJ_pos j
          have h2 : sizeItems (j :: js) = 1 + sizeJ j + sizeItems js := rfl
          omega
        | succ f =>
          cases js with
          | nil =>
            have hsz : sizeItems [j] = 1 + sizeJ j + 0 := rfl
            have hj : parseJ f (encJson j ++ ']' :: rest) = some (j, ']' :: rest) := by
              apply ihJ j f (']' :: rest) (by omega) (by omega) (by rfl)
            simp only [encItems]
            simp [parseItems, hj]
          | cons j2 js2 =>
            have hsz : sizeItems (j :: j2 :: js2) = 1 + sizeJ j + sizeItems (j2 :: js2) := rfl
            have hpos := sizeJ_pos j
            have hpos2 : 1 ≤ sizeItems (j2 :: js2) := by
              have := sizeJ_pos j2
              have e : sizeItems (j2 :: js2) = 1 + sizeJ j2 + sizeItems js2 := rfl
              omega
            have hj : parseJ f (encJson j ++ ',' :: (encItems (j2 :: js2) ++ ']' :: rest))
                = some (j, ',' :: (encItems (j2 :: js2) ++ ']' :: rest)) := by
              apply ihJ j f _ (by omega) (by omega) (by rfl)
            have hrec : parseItems f (encItems (j2 :: js2) ++ ']' :: rest)
                = some (j2 :: js2, rest) := by
              apply ihI (j2 :: js2) f rest (by simp) (by omega) (by omega)
            simp only [encItems, List.cons_append, List.append_assoc, List.singleton_append]
            simp only [List.cons_append] at hj
            simp [parseItems, hj, hrec]

theorem parseJ_enc (j : Json) (fuel : Nat) (rest : List Char)
    (hfuel : sizeJ j ≤ fuel) (hrest : headNotDigit rest = true) :
    parseJ fuel (encJson j ++ rest) = some (j, rest) :=
  (parse_enc_main (sizeJ j)).1 j fuel rest le_rfl hfuel hrest

theorem parseItems_enc (js : List Json) (fuel : Nat) (rest : List Char)
    (hne : js ≠ []) (hfuel : sizeItems js ≤ fuel) :
    parseItems fuel (encItems js ++ ']' :: rest) = some (js, rest) :=
  (parse_enc_main (sizeItems js)).2 js fuel rest hne le_rfl hfuel

theorem parseJson_stringify (j : Json) : parseJson (jsonStringify j) = some j := by
  have hdata : (jsonStringify j).data = encJson j := rfl
  have hp : parseJ ((encJson j).length + 1) (encJson j ++ []) = some (j, []) := by
    apply parseJ_enc j _ [] ?_ (by decide)
    have := sizeJ_le_len j
    omega
  unfold parseJson
  rw [hdata, ← List.append_nil (encJson j)]
  rw [List.append_nil]  at hp ⊢
  rw [hp]

/-! ### The digest contract and a concrete stand-in

The repository wraps node's crypto in md5Hex (utils/md5.ts); the digest
itself is platform code, so the embedding passes `md5Hex : String → String`
as a parameter.  The only property the code relies on is that the digest is
a deterministic 32-character lowercase-hex string.  `md5Model` is a concrete
executable stand-in satisfying that contract, used to instantiate
witnesses. -/

def hexDigitChars : List Char := "0123456789abcdef".data

/-- Concrete deterministic stand-in for the platform MD5 hex digest: mixes
the input characters into 128 bits and renders 32 hex digits. -/
def md5Model (s : String) : String :=
  let seed := s.data.foldl (fun a c => (a * 131 + c.toNat + 17) % (2 ^ 128)) 1
  ⟨(List.range 32).map (fun i => hexDigitChars.getD (seed / 16 ^ i % 16) '0')⟩

/-- Contract of the md5Hex wrapper: every digest is 32 lowercase hex
characters. -/
def HexDigest32 (md5Hex : String → String) : Prop :=
  ∀ s, (md5Hex s).data.length = 32 ∧ ∀ c ∈ (md5Hex s).data, isHexChar c = true

theorem md5Model_hex : HexDigest32 md5Model := by
  intro s
  constructor
  · simp [md5Model]
  · intro c hc
    simp [md5Model] at hc
    obtain ⟨i, hi, hceq⟩ := hc
    subst hceq
    have h : (s.data.foldl (fun a c => (a * 131 + c.toNat + 17) % (2 ^ 128)) 1)
        / 16 ^ i % 16 < 16 := Nat.mod_lt _ (by omega)
    generalize (s.data.foldl (fun a c => (a * 131 + c.toNat + 17) % (2 ^ 128)) 1)
        / 16 ^ i % 16 = m at h
    unfold hexDigitChars
    interval_cases m <;> decide

theorem hex_ne_colon {c : Char} (h : isHexChar c = true) : c ≠ ':' := by
  apply char_ne_of_toNat_ne
  simp [isHexChar] at h
  intro hv
  rw [hv] at h
  simp at h

theorem hex_alnum {c : Char} (h : isHexChar c = true) : isAlnumChar c = true := by
  simp [isHexChar] at h
  simp [isAlnumChar]
  omega

/-! ### Function identity hashing (callback-registry.ts)

A JavaScript function value is embedded as its object identity `fnId`, its
`.name`, and its source text (`Function.prototype.toString`). -/

structure JsFunction where
  fnId : Nat
  name : String
  source : String
deriving DecidableEq, Repr

/-- calculateFunctionHash (callback-registry.ts):
fn.name ? fn.name.slice(0, 8) + fnHash.slice(0, Math.max(4, 12 - fn.name.length))
        : fnHash.slice(12).
Nat subtraction truncates at 0 exactly where the JS Math.max(4, …) clamps a
non-positive value to 4, so the two agree. -/
def calculateFunctionHash (md5Hex : String → String) (fn : JsFunction) : String :=
  let fnHash := md5Hex fn.source
  if fn.name ≠ "" then
    ⟨fn.name.data.take 8 ++ fnHash.data.take (max 4 (12 - fn.name.data.length))⟩
  else ⟨fnHash.data.drop 12⟩

/-- calculateFunctionHashWithPath (callback-registry.ts):
name ? name.slice(-12) + hash.slice(0, Math.max(4, 16 - fn.name.length))
     : hash.slice(0, 16), where name = path || fn.name and hash = md5Hex(name).
String.slice(-12) keeps the last min(12, length) characters, which is
data.drop (length - 12) with truncating subtraction. -/
def calculateFunctionHashWithPath (md5Hex : String → String) (fn : JsFunction)
    (path : String) : String :=
  let name := if path ≠ "" then path else fn.name
  let hash := md5Hex name
  if name ≠ "" then
    ⟨name.data.drop (name.data.length - 12) ++ hash.data.take (max 4 (16 - fn.name.data.length))⟩
  else ⟨hash.data.take 16⟩

/-! ### The global registry and assoc-table operations

JavaScript plain objects used as string-keyed tables become association
lists; assignment obj[k] = v is `setA` (replace in place or append) and
obj[k] lookup is `lookupA`. -/

abbrev Registry := List (String × Nat)

def lookupA {α : Type} : List (String × α) → String → Option α
  | [], _ => none
  | (k, v) :: t, q => if k = q then some v else lookupA t q

def setA {α : Type} : List (String × α) → String → α → List (String × α)
  | [], k, v => [(k, v)]
  | (k', v') :: t, k, v => if k' = k then (k, v) :: t else (k', v') :: setA t k v

/-! ### Curried callbacks and serialisation -/

/-- The pure data of a CurriedCallback: the registered origin hash and the
accumulated parameters (undefined until the first partial application, as in
createCurried where `curried.params = accumulatedParams`). -/
structure CurriedCallback where
  originHash : String
  params : Option (List Json)

/-- toCallbackData (callback-registry.ts): `_cb:<hash>` without parameters,
`_cb:<hash>:<JSON.stringify(params)>` with parameters. -/
def toCallbackData (c : CurriedCallback) : String :=
  match c.params with
  | none => "_cb:" ++ c.originHash
  | some ps =>
    if ps.length = 0 then "_cb:" ++ c.originHash
    else "_cb:" ++ c.originHash ++ ":" ++ jsonStringify (.arr ps)

/-- The parameter-accumulating branch of createCurried: a call without a
context extends the accumulated parameters
(`params = curried.params ? curried.params.concat(args) : args`). -/
def curryApply (c : CurriedCallback) (args : List Json) : CurriedCallback :=
  { originHash := c.originHash,
    params := some (match c.params with
      | some ps => ps ++ args
      | none => args) }

/-- cb (callback-registry.ts): hash the function, store it in the global
registry (plain assignment — an existing binding under the same hash is
silently overwritten), and return the curried wrapper with no accumulated
parameters. -/
def cb (md5Hex : String → String) (reg : Registry) (fn : JsFunction) :
    Registry × CurriedCallback :=
  let hash := calculateFunctionHash md5Hex fn
  (setA reg hash fn.fnId, { originHash := hash, params := none })

/-! ### Deep registration (cbs) -/

/-- A nested callbacks object: function leaves inside string-keyed nodes. -/
inductive CbTree where
  | leaf (fn : JsFunction) : CbTree
  | node (children : List (String × CbTree)) : CbTree

/-- The converted object returned by cbs: same shape, curried leaves. -/
inductive CurriedTree where
  | leaf (c : CurriedCallback) : CurriedTree
  | node (children : List (String × CurriedTree)) : CurriedTree

/-- parentPath.replace(/^\./, '') from cbs.walk. -/
def stripLeadingDot (s : String) : String :=
  if s.data.head? = some '.' then ⟨s.data.tail⟩ else s

/-- childPath construction from cbs.walk:
parentPath ? parentPath + '.' + key : key. -/
def childPath (p k : String) : String := if p = "" then k else p ++ "." ++ k

mutual

/-- walk (cbs, callback-registry.ts): at a function leaf, hash by path,
throw `Callback with hash … already registered` when the registry already
binds that hash (whether to the same function or a different one), else
register; at a node, recurse over the children in key order. -/
def walk (md5Hex : String → String) (reg : Registry) :
    CbTree → String → Except String (Registry × CurriedTree)
  | .leaf fn, parentPath =>
    let path := stripLeadingDot parentPath
    let hash := calculateFunctionHashWithPath md5Hex fn path
    if (lookupA reg hash).isSome then
      .error ("Callback with hash " ++ hash ++ " already registered")
    else .ok (setA reg hash fn.fnId, .leaf { originHash := hash, params := none })
  | .node kids, parentPath =>
    match walkKids md5Hex reg kids parentPath with
    | .error e => .error e
    | .ok (reg', out) => .ok (reg', .node out)

/-- Children traversal of walk, threading the registry left to right. -/
def walkKids (md5Hex : String → String) (reg : Registry) :
    List (String × CbTree) → String → Except String (Registry × List (String × CurriedTree))
  | [], _ => .ok (reg, [])
  | (key, sub) :: rest, parentPath =>
    match walk md5Hex reg sub (childPath parentPath key) with
    | .error e => .error e
    | .ok (reg', out) =>
      match walkKids md5Hex reg' rest parentPath with
      | .error e => .error e
      | .ok (reg'', outs) => .ok (reg'', (key, out) :: outs)

end

/-- cbs (callback-registry.ts): walk the object from the empty parent
path. -/
def cbs (md5Hex : String → String) (reg : Registry) (t : CbTree) :
    Except String (Registry × CurriedTree) :=
  walk md5Hex reg t ""

/-! ### Per-user session state (callback-types.ts / callbacks-middleware.ts)

getSessionData(ctx) returns the per-user mutable record; in the embedding
the record is threaded explicitly through every operation.  The wait slot
carries an allocation tag modelling JavaScript object identity (the source
compares wait states with ===). -/

/-- An entry of the session params table: { hash, params } as written by
storeCallbackData. -/
structure SessionEntry where
  hash : String
  params : String
deriving DecidableEq, Repr

/-- WaitState (callback-types.ts). -/
structure WaitStateData where
  messageId : Nat
  cancelKeyword : String
  filter : Option (List String)
  handlerId : String
  timeoutId : Nat
deriving DecidableEq, Repr

/-- A stored wait state together with its allocation tag (object
identity). -/
structure WaitSlot where
  tag : Nat
  st : WaitStateData
deriving DecidableEq, Repr

/-- CallbackSessionData (callback-types.ts): reply correlation table, params
overflow table, optional wait state, last executed hash. -/
structure CallbackSessionData where
  reply : List (String × String)
  params : List (String × SessionEntry)
  wait : Option WaitSlot
  lastHash : Option String

/-- The initial session record (initialCallbackData). -/
def initialCallbackData : CallbackSessionData :=
  { reply := [], params := [], wait := none, lastHash := none }

/-! ### Token splitting and overflow storage (callback-registry.ts) -/

/-- splitCallbackData (callback-registry.ts):
const [prefix, hash] = callbackData.split(':', 2);
if (!prefix || prefix.length !== 3 || prefix[0] !== '_') return ['', '', undefined];
const paramsJson = callbackData.slice(prefix.length + hash.length + 2);
return [prefix, hash, paramsJson || undefined];
The outer `none` models the TypeError thrown by `hash.length` when the
input has no colon (so the split's second component is undefined) yet the
prefix shape check passes. -/
def splitCallbackData (callbackData : String) : Option (String × String × Option String) :=
  match jsSplitColon2 callbackData.data with
  | (pre, hashOpt) =>
    if pre.isEmpty || pre.length ≠ 3 || pre.head? ≠ some '_' then
      some ("", "", none)
    else
      match hashOpt with
      | none => none
      | some hash =>
        let paramsJson := callbackData.data.drop (pre.length + hash.length + 2)
        some (⟨pre⟩, ⟨hash⟩, if paramsJson.isEmpty then none else some ⟨paramsJson⟩)

/-- generateHash (callback-registry.ts): md5Hex(params).slice(0, 8). -/
def generateHash (md5Hex : String → String) (params : String) : String :=
  ⟨(md5Hex params).data.take 8⟩

/-- storeCallbackData (callback-registry.ts): split the token; without a
params part return it unchanged; otherwise key the { hash, params } entry by
the short hash of the params JSON and return `_ch:<shortHash>`.  The outer
`none` propagates the split TypeError. -/
def storeCallbackData (md5Hex : String → String) (sess : CallbackSessionData)
    (cbData : String) : Option (String × CallbackSessionData) :=
  match splitCallbackData cbData with
  | none => none
  | some (_, hash, paramsJson) =>
    match paramsJson with
    | none => some (cbData, sess)
    | some pj =>
      let sessionHash := generateHash md5Hex pj
      some ("_ch:" ++ sessionHash,
        { sess with params := setA sess.params sessionHash ⟨hash, pj⟩ })

/-! ### Executing a callback (callback-registry.ts executeCallback) -/

/-- Truthiness classes of a handler's resolved value: exactly false, another
falsy value (undefined, 0, '', null, NaN), or a truthy value. -/
inductive JsRet where
  | retFalse : JsRet
  | retFalsy : JsRet
  | retTruthy : JsRet
deriving DecidableEq, Repr

/-- JavaScript truthiness of the classified value. -/
def truthy : JsRet → Bool
  | .retTruthy => true
  | _ => false

/-- What a handler invocation did: resolved to a value or threw. -/
inductive HandlerResult where
  | returns (r : JsRet) : HandlerResult
  | throws : HandlerResult
deriving DecidableEq, Repr

/-- Behaviour of the registered handler bodies: given the handler's object
identity, the decoded parameters, the extra args and the session, produce
the updated session and the outcome.  Universally quantified in theorems;
instantiated concretely in witnesses. -/
abbrev HandlerRun :=
  Nat → List Json → List (Option String) → CallbackSessionData →
    CallbackSessionData × HandlerResult

/-- Errors executeCallback can throw. -/
inductive ExecErr where
  | splitCrash : ExecErr
  | sessionNotFound (hash : String) : ExecErr
  | unknownCallback (hash : String) : ExecErr
  | jsonParseError : ExecErr
  | notIterable : ExecErr
  | handlerError : ExecErr
deriving DecidableEq, Repr

/-- Outcome of executeCallback: the awaited handler value, or a thrown
error. -/
inductive ExecOutcome where
  | ret (r : JsRet) : ExecOutcome
  | threw (e : ExecErr) : ExecOutcome
deriving DecidableEq, Repr

/-- A record of one handler invocation (which handler, with which decoded
parameters and extra arguments). -/
structure Invocation where
  handler : Nat
  params : List Json
  extra : List (Option String)

/-- Spreading the parsed JSON value into the call
`callback(ctx, ...params, ...args)`: arrays spread to their elements,
strings to their characters, anything else throws TypeError. -/
def jsSpread : Json → Option (List Json)
  | .arr l => some l
  | .str s => some (s.data.map (fun c => .str ⟨[c]⟩))
  | _ => none

/-- Invoke the handler found in the registry. -/
def runHandler (hrun : HandlerRun) (hid : Nat) (params : List Json)
    (args : List (Option String)) (sess : CallbackSessionData) :
    CallbackSessionData × ExecOutcome × List Invocation :=
  let out := hrun hid params args sess
  (out.1,
    match out.2 with
    | .returns v => .ret v
    | .throws => .threw .handlerError,
    [⟨hid, params, args⟩])

/-- The registry-lookup and invocation tail of executeCallback, shared by
the `_cb` and `_ch` paths: const callback = callbackRegistry[hash]; if
(!callback) throw; const params = paramsJson ? JSON.parse(paramsJson) : [];
return await callback(ctx, ...params, ...args). -/
def execLookup (hrun : HandlerRun) (registry : Registry) (sess : CallbackSessionData)
    (hash : String) (paramsJson : Option String) (args : List (Option String)) :
    CallbackSessionData × ExecOutcome × List Invocation :=
  match lookupA registry hash with
  | none => (sess, .threw (.unknownCallback hash), [])
  | some hid =>
    match paramsJson with
    | none => runHandler hrun hid [] args sess
    | some pj =>
      match parseJson pj with
      | none => (sess, .threw .jsonParseError, [])
      | some j =>
        match jsSpread j with
        | none => (sess, .threw .notIterable, [])
        | some params => runHandler hrun hid params args sess

/-- executeCallback (callback-registry.ts): split the token; for `_ch`
resolve the indirection through the session params table (throwing
`Session callback … not found` when absent); look the hash up in the global
registry (throwing `Callback … not found in registry` when absent); parse
the params JSON and invoke. -/
def executeCallback (hrun : HandlerRun) (registry : Registry) (sess : CallbackSessionData)
    (callbackData : String) (args : List (Option String)) :
    CallbackSessionData × ExecOutcome × List Invocation :=
  match splitCallbackData callbackData with
  | none => (sess, .threw .splitCrash, [])
  | some (pre, initialHash, initialParamsJson) =>
    if pre = "_ch" then
      match lookupA sess.params initialHash with
      | none => (sess, .threw (.sessionNotFound initialHash), [])
      | some entry => execLookup hrun registry sess entry.hash (some entry.params) args
    else execLookup hrun registry sess initialHash initialParamsJson args

/-! ### Plain-text dispatch (handleText) and the callback_query middleware -/

/-- Result of a middleware-style handler: passed on to next(), stopped, or
raised an uncaught error. -/
inductive MWResult where
  | handledStop : MWResult
  | passedNext : MWResult
  | raised (e : ExecErr) : MWResult
deriving DecidableEq, Repr

/-- handleText (callback-registry.ts): on empty/absent text call next();
look the text up in the session reply table; a present (truthy) entry is
executed, and only a resolved value of exactly false falls through to
next(); an absent entry falls through to next(). An error thrown by
executeCallback is not caught. -/
def handleText (hrun : HandlerRun) (registry : Registry) (sess : CallbackSessionData)
    (msgText : Option String) : CallbackSessionData × MWResult × List Invocation :=
  match msgText with
  | none => (sess, .passedNext, [])
  | some t =>
    if t = "" then (sess, .passedNext, [])
    else
      match lookupA sess.reply t with
      | none => (sess, .passedNext, [])
      | some cd =>
        if cd = "" then (sess, .passedNext, [])
        else
          match executeCallback hrun registry sess cd [] with
          | (s1, .ret v, calls) =>
            if v = .retFalse then (s1, .passedNext, calls) else (s1, .handledStop, calls)
          | (s1, .threw e, calls) => (s1, .raised e, calls)

/-- Model of String.prototype.startsWith over the character lists. -/
def strStartsWith (s p : String) : Bool := s.data.take p.data.length == p.data

/-- isCallbackData (callbacks-middleware.ts): string starting with `_cb:` or
`_ch:`. -/
def isCallbackData : Option String → Bool
  | some d => strStartsWith d "_cb:" || strStartsWith d "_ch:"
  | none => false

/-- The callback_query handler installed by setupCallbacks
(callbacks-middleware.ts): if isCallbackData(data) and executeCallback's
awaited value is truthy, stop; otherwise call next().  Errors thrown by
executeCallback are not caught and propagate out of the middleware. -/
def callbackQueryHandler (hrun : HandlerRun) (registry : Registry)
    (sess : CallbackSessionData) (data : Option String) :
    CallbackSessionData × MWResult × List Invocation :=
  if isCallbackData data then
    match data with
    | none => (sess, .passedNext, [])
    | some d =>
      match executeCallback hrun registry sess d [] with
      | (s1, .ret v, calls) =>
        if truthy v then (s1, .handledStop, calls) else (s1, .passedNext, calls)
      | (s1, .threw e, calls) => (s1, .raised e, calls)
  else (sess, .passedNext, [])

/-! ### The wait protocol (wait.ts) -/

/-- Side effects on the host platform performed by the wait protocol. -/
inductive Effect where
  | deleteMessages (ids : List Nat) : Effect
deriving DecidableEq, Repr

/-- WaitOptions (wait.ts); validator and the options-level filter are never
read by wait, so only the consumed fields are carried. -/
structure WaitOptions where
  messageId : Option Nat := none
  cancelKeyword : Option String := none
  timeoutMs : Option Nat := none
deriving DecidableEq, Repr

/-- clearWaitState (wait.ts): when a wait state with a truthy (non-zero)
messageId is present, attempt ctx.deleteMessages([messageId]); then delete
the wait slot. -/
def clearWaitState (sess : CallbackSessionData) : CallbackSessionData × List Effect :=
  let eff :=
    match sess.wait with
    | some slot => if slot.st.messageId ≠ 0 then [Effect.deleteMessages [slot.st.messageId]] else []
    | none => []
  ({ sess with wait := none }, eff)

/-- The filter argument as passed positionally: a single query or an
array of queries (the Array.isArray branch of wait). -/
inductive FilterArg where
  | one (q : String) : FilterArg
  | many (qs : List String) : FilterArg
deriving DecidableEq, Repr

/-- The wait-state object literal stored by wait (wait.ts): messageId `|| 0`,
cancel keyword `(waitOptions?.cancelKeyword || '/cancelwait').toLowerCase()`,
the filter wrapped into an array, the handler rendered to its token,
timeoutId 0. -/
def mkWaitStateData (filter : FilterArg) (handler : CurriedCallback)
    (waitOptions : Option WaitOptions) : WaitStateData :=
  let kwRaw :=
    match waitOptions with
    | some o =>
      match o.cancelKeyword with
      | some k => if k = "" then "/cancelwait" else k
      | none => "/cancelwait"
    | none => "/cancelwait"
  let mid :=
    match waitOptions with
    | some o => o.messageId.getD 0
    | none => 0
  let fs :=
    match filter with
    | .one q => [q]
    | .many qs => qs
  { messageId := mid, cancelKeyword := jsToLower kwRaw, filter := some fs,
    handlerId := toCallbackData handler, timeoutId := 0 }

/-- wait (wait.ts): clear any previous wait state (attempting its anchor
deletion), then store the new state.  The fresh JavaScript object literal is
modelled by the allocation tag. -/
def wait (tag : Nat) (sess : CallbackSessionData) (filter : FilterArg)
    (handler : CurriedCallback) (waitOptions : Option WaitOptions) :
    CallbackSessionData × List Effect :=
  let cleared := clearWaitState sess
  ({ cleared.1 with wait := some ⟨tag, mkWaitStateData filter handler waitOptions⟩ },
    cleared.2)

/-- The isCurriedCallback overload branch of wait: when the handler is
passed in filter position, the filter defaults to ['message:text'] and the
second positional argument is read as the options. -/
def waitHandlerOnly (tag : Nat) (sess : CallbackSessionData) (handler : CurriedCallback)
    (waitOptions : Option WaitOptions) : CallbackSessionData × List Effect :=
  wait tag sess (.many ["message:text"]) handler waitOptions

/-- The relevant shape of the inbound update: which filter queries it
matches and its text / callback-data payloads. -/
structure Update where
  kinds : List String
  msgText : Option String
  cbData : Option String
deriving DecidableEq, Repr

/-- ctx.has for a single filter query, modelled by membership in the
update's kinds. -/
def hasQ (u : Update) (q : String) : Bool := u.kinds.contains q

/-- ctx.has for an array of filter queries (matches when any one
matches). -/
def hasAny (u : Update) (qs : List String) : Bool := qs.any (hasQ u)

/-- The text extraction of handleWaitResponse: message text when the update
is message:text, else callback data when it is callback_query:data, else
undefined. -/
def extractText (u : Update) : Option String :=
  if hasQ u "message:text" then u.msgText
  else if hasQ u "callback_query:data" then u.cbData
  else none

/-- Result of handleWaitResponse: final session, attempted effects, handler
invocations made, and the returned boolean. -/
structure WaitResp where
  sess : CallbackSessionData
  effects : List Effect
  calls : List Invocation
  handled : Bool

/-- The `.catch(err => true)` wrapper around the handler invocation in
handleWaitResponse: a thrown error is turned into the truthy value true. -/
def catchTrue : ExecOutcome → JsRet
  | .ret v => v
  | .threw _ => .retTruthy

/-- The tail of handleWaitResponse: `if (getSessionData(ctx).wait ===
waitState) clearWaitState(ctx); return true` — clear only when the present
slot is the very object read at entry (same allocation tag). -/
def clearIfSame (s : CallbackSessionData) (tag : Nat) (calls : List Invocation) : WaitResp :=
  match s.wait with
  | some slot' =>
    if slot'.tag = tag then
      let cleared := clearWaitState s
      ⟨cleared.1, cleared.2, calls, true⟩
    else ⟨s, [], calls, true⟩
  | none => ⟨s, [], calls, true⟩

/-- handleWaitResponse (wait.ts): no wait state → false; cancel keyword
matched case-insensitively by non-empty text → clear, true; stored filter
unmatched → false; otherwise execute the stored handler token with the text
as extra argument (errors caught and turned into true); exactly false keeps
the state; any other outcome clears the state only if it is still the same
object that was read at entry. -/
def handleWaitResponse (hrun : HandlerRun) (registry : Registry) (u : Update)
    (sess : CallbackSessionData) : WaitResp :=
  match sess.wait with
  | none => ⟨sess, [], [], false⟩
  | some slot =>
    let text := extractText u
    let cancelHit :=
      match text with
      | some t => t ≠ "" && jsToLower t = slot.st.cancelKeyword
      | none => false
    if cancelHit then
      let cleared := clearWaitState sess
      ⟨cleared.1, cleared.2, [], true⟩
    else
      let filterMiss :=
        match slot.st.filter with
        | some fs => !hasAny u fs
        | none => false
      if filterMiss then ⟨sess, [], [], false⟩
      else
        if slot.st.handlerId ≠ "" then
          match executeCallback hrun registry sess slot.st.handlerId [text] with
          | (s1, out, calls) =>
            if catchTrue out = .retFalse then ⟨s1, [], calls, true⟩
            else clearIfSame s1 slot.tag calls
        else clearIfSame sess slot.tag []

/-- waitMiddleware (wait.ts): next() exactly when handleWaitResponse
returned false. -/
def waitMiddleware (hrun : HandlerRun) (registry : Registry) (u : Update)
    (sess : CallbackSessionData) : WaitResp × Bool :=
  let r := handleWaitResponse hrun registry u sess
  (r, !r.handled)

/-! ### Helper lemmas: string splitting, assoc tables, hash shapes -/

theorem strData_append (a b : String) : (a ++ b).data = a.data ++ b.data := by
  cases a; cases b; rfl

theorem splitFirst_not_mem {c : Char} : ∀ {xs : List Char}, c ∉ xs → splitFirst c xs = none := by
  intro xs
  induction xs with
  | nil => intro _; rfl
  | cons x t ih =>
    intro h
    have hx : x ≠ c := fun he => h (by simp [he])
    have ht : c ∉ t := fun hm => h (by simp [hm])
    simp [splitFirst, hx, ih ht]

theorem splitFirst_append {c : Char} : ∀ (xs ys : List Char), c ∉ xs →
    splitFirst c (xs ++ c :: ys) = some (xs, ys) := by
  intro xs
  induction xs with
  | nil => intro ys _; simp [splitFirst]
  | cons x t ih =>
    intro ys h
    have hx : x ≠ c := fun he => h (by simp [he])
    have ht : c ∉ t := fun hm => h (by simp [hm])
    simp [splitFirst, hx, ih ys ht]

theorem lookupA_setA {α : Type} (l : List (String × α)) (k : String) (v : α) :
    lookupA (setA l k v) k = some v := by
  induction l with
  | nil => simp [setA, lookupA]
  | cons p t ih =>
    by_cases h : p.1 = k
    · simp [setA, h, lookupA]
    · simp [setA, h, lookupA, ih]

theorem setA_setA {α : Type} (l : List (String × α)) (k : String) (v : α) :
    setA (setA l k v) k v = setA l k v := by
  induction l with
  | nil => simp [setA]
  | cons p t ih =>
    by_cases h : p.1 = k
    · simp [setA, h]
    · simp [setA, h, ih]

theorem splitCallbackData_withParams (a b : Char) (s : String) (hd pd : List Char)
    (hs : s.data = '_' :: a :: b :: ':' :: (hd ++ ':' :: pd))
    (ha : a ≠ ':') (hb : b ≠ ':') (hh : ':' ∉ hd) (hpd : pd ≠ []) :
    splitCallbackData s = some (⟨['_', a, b]⟩, ⟨hd⟩, some ⟨pd⟩) := by
  have h1 : splitFirst ':' s.data = some (['_', a, b], hd ++ ':' :: pd) := by
    rw [hs]
    simp [splitFirst, ha, hb]
  have h2 : splitFirst ':' (hd ++ ':' :: pd) = some (hd, pd) := splitFirst_append hd pd hh
  have hsplit : jsSplitColon2 s.data = (['_', a, b], some hd) := by
    simp [jsSplitColon2, h1, h2]
  have hdrop : s.data.drop (3 + hd.length + 2) = pd := by
    rw [hs]
    have he : '_' :: a :: b :: ':' :: (hd ++ ':' :: pd)
        = (['_', a, b, ':'] ++ hd ++ [':']) ++ pd := by simp
    have hlen : (['_', a, b, ':'] ++ hd ++ [':']).length = 3 + hd.length + 2 := by
      simp; omega
    rw [he, ← hlen, List.drop_left]
  have hpd' : pd.isEmpty = false := by cases pd with | nil => exact absurd rfl hpd | cons _ _ => rfl
  have hdrop' : s.data.drop (hd.length + 5) = pd := by
    have e : hd.length + 5 = 3 + hd.length + 2 := by omega
    rw [e, hdrop]
  unfold splitCallbackData
  rw [hsplit]
  simp [hdrop, hdrop', hpd']

theorem splitCallbackData_noParams (a b : Char) (s : String) (hd : List Char)
    (hs : s.data = '_' :: a :: b :: ':' :: hd)
    (ha : a ≠ ':') (hb : b ≠ ':') (hh : ':' ∉ hd) :
    splitCallbackData s = some (⟨['_', a, b]⟩, ⟨hd⟩, none) := by
  have h1 : splitFirst ':' s.data = some (['_', a, b], hd) := by
    rw [hs]
    simp [splitFirst, ha, hb]
  have h2 : splitFirst ':' hd = none := splitFirst_not_mem hh
  have hsplit : jsSplitColon2 s.data = (['_', a, b], some hd) := by
    simp [jsSplitColon2, h1, h2]
  have hdrop : s.data.drop (3 + hd.length + 2) = [] := by
    apply List.drop_eq_nil_of_le
    rw [hs]
    simp
    omega
  have hdrop' : s.data.drop (hd.length + 5) = [] := by
    have e : hd.length + 5 = 3 + hd.length + 2 := by omega
    rw [e, hdrop]
  unfold splitCallbackData
  rw [hsplit]
  simp [hdrop, hdrop']

theorem calculateFunctionHash_no_colon (md5Hex : String → String) (fn : JsFunction)
    (hmd5 : HexDigest32 md5Hex) (hname : ':' ∉ fn.name.data) :
    ':' ∉ (calculateFunctionHash md5Hex fn).data := by
  unfold calculateFunctionHash
  by_cases hn : fn.name = ""
  · simp [hn]
    intro hmem
    have hm2 := List.mem_of_mem_drop hmem
    exact hex_ne_colon ((hmd5 fn.source).2 ':' hm2) rfl
  · simp [hn]
    constructor
    · intro hmm
      exact hname (List.mem_of_mem_take hmm)
    · intro hmm
      exact hex_ne_colon ((hmd5 fn.source).2 ':' (List.mem_of_mem_take hmm)) rfl

theorem split_toCallbackData (hstr : String) (ps : List Json) (hcol : ':' ∉ hstr.data) :
    splitCallbackData (toCallbackData ⟨hstr, some ps⟩)
      = some ("_cb", hstr,
          if ps.isEmpty then none else some (jsonStringify (.arr ps))) := by
  obtain ⟨hd⟩ := hstr
  have hcbdata : ("_cb:" : String).data = ['_', 'c', 'b', ':'] := by decide
  have hcb : (⟨['_', 'c', 'b']⟩ : String) = "_cb" := by decide
  cases ps with
  | nil =>
    have hdata : (toCallbackData ⟨⟨hd⟩, some []⟩).data = '_' :: 'c' :: 'b' :: ':' :: hd := by
      show ("_cb:" ++ (⟨hd⟩ : String)).data = _
      rw [strData_append, hcbdata]
      rfl
    rw [splitCallbackData_noParams 'c' 'b' _ hd hdata (by decide) (by decide) hcol]
    rw [hcb]
    rfl
  | cons j js =>
    have henc : jsonStringify (Json.arr (j :: js)) = ⟨encJson (.arr (j :: js))⟩ := rfl
    have hne : encJson (.arr (j :: js)) ≠ [] := encJson_ne_nil _
    have hdata : (toCallbackData ⟨⟨hd⟩, some (j :: js)⟩).data
        = '_' :: 'c' :: 'b' :: ':' :: (hd ++ ':' :: encJson (.arr (j :: js))) := by
      show ("_cb:" ++ (⟨hd⟩ : String) ++ ":" ++ jsonStringify (.arr (j :: js))).data = _
      rw [strData_append, strData_append, strData_append, hcbdata]
      show ((['_', 'c', 'b', ':'] ++ hd) ++ ":".data) ++ encJson (.arr (j :: js)) = _
      simp
    rw [splitCallbackData_withParams 'c' 'b' _ hd (encJson (.arr (j :: js))) hdata
      (by decide) (by decide) hcol hne]
    rw [hcb]
    rfl

theorem executeCallback_direct (hrun : HandlerRun) (reg : Registry)
    (sess : CallbackSessionData) (hstr : String) (hid : Nat) (A : List Json)
    (args : List (Option String))
    (hcol : ':' ∉ hstr.data) (hlook : lookupA reg hstr = some hid) :
    executeCallback hrun reg sess (toCallbackData ⟨hstr, some A⟩) args
      = runHandler hrun hid A args sess := by
  have hsplit := split_toCallbackData hstr A hcol
  have hne : ("_cb" : String) ≠ "_ch" := by decide
  unfold executeCallback
  rw [hsplit]
  cases A with
  | nil =>
    simp [hne, execLookup, hlook]
  | cons j js =>
    have hparse : parseJson (jsonStringify (.arr (j :: js))) = some (.arr (j :: js)) :=
      parseJson_stringify _
    simp [hne, execLookup, hlook, hparse, jsSpread]

/-! ### Concrete fixtures used to instantiate witnesses -/

/-- A handler behaviour that leaves the session unchanged and resolves to a
falsy non-false value (a typical void handler resolving to undefined). -/
def hrunSilent : HandlerRun := fun _ _ _ s => (s, .returns .retFalsy)

/-- A handler behaviour that leaves the session unchanged and resolves to
exactly false. -/
def hrunFalse : HandlerRun := fun _ _ _ s => (s, .returns .retFalse)

/-- A named example handler function. -/
def fnGreet : JsFunction :=
  ⟨1, "greet", "async (ctx, name, age) => { await ctx.reply(name + age); }"⟩

/-- An argument tuple whose JSON encoding contains a colon. -/
def argsColon : List Json := [.str "a:b", .num 25]

/-! ### Claim C1 -/

/-- Claim C1: registering a handler with cb, currying the argument tuple A
onto it, rendering the wire token with toCallbackData and executing that
token with executeCallback invokes exactly the registered handler with
exactly the arguments A (context implicit, no extra arguments) — also when
the JSON-encoded arguments contain colons, since splitCallbackData splits
only on the first two colons.  The digest is assumed to satisfy the 32-hex
contract, the function name (a JavaScript identifier) to contain no colon,
and the arguments to lie in the fragment where the modelled codec is
faithful to JSON.stringify. -/
theorem c1_render_execute_round_trip
    (md5Hex : String → String) (hrun : HandlerRun) (reg : Registry)
    (sess : CallbackSessionData) (fn : JsFunction) (A : List Json)
    (hmd5 : HexDigest32 md5Hex) (hname : ':' ∉ fn.name.data)
    (hwf : wfItems A = true) :
    executeCallback hrun (cb md5Hex reg fn).1 sess
        (toCallbackData (curryApply (cb md5Hex reg fn).2 A)) []
      = runHandler hrun fn.fnId A [] sess
    ∧ (runHandler hrun fn.fnId A [] sess).2.2 = [⟨fn.fnId, A, []⟩] := by
  constructor
  · have hcol := calculateFunctionHash_no_colon md5Hex fn hmd5 hname
    have hcurry : curryApply (cb md5Hex reg fn).2 A
        = ⟨calculateFunctionHash md5Hex fn, some A⟩ := rfl
    rw [hcurry]
    exact executeCallback_direct hrun (cb md5Hex reg fn).1 sess
      (calculateFunctionHash md5Hex fn) fn.fnId A [] hcol
      (lookupA_setA reg (calculateFunctionHash md5Hex fn) fn.fnId)
  · rfl

/-- Witness for C1 at a concrete handler and a colon-containing argument
tuple. -/
theorem c1_witness :
    executeCallback hrunSilent (cb md5Model [] fnGreet).1 initialCallbackData
        (toCallbackData (curryApply (cb md5Model [] fnGreet).2 argsColon)) []
      = runHandler hrunSilent fnGreet.fnId argsColon [] initialCallbackData
    ∧ (runHandler hrunSilent fnGreet.fnId argsColon [] initialCallbackData).2.2
      = [⟨fnGreet.fnId, argsColon, []⟩] :=
  c1_render_execute_round_trip md5Model hrunSilent [] initialCallbackData fnGreet argsColon
    md5Model_hex (by decide) (by decide)

/-! ### Claim C8 -/

theorem splitFirst_eq_none {c : Char} : ∀ {xs : List Char},
    splitFirst c xs = none ↔ c ∉ xs := by
  intro xs
  induction xs with
  | nil => simp [splitFirst]
  | cons x t ih =>
    constructor
    · intro h
      by_cases hx : x = c
      · simp [splitFirst, hx] at h
      · simp [splitFirst, hx] at h
        intro hmem
        rcases List.mem_cons.mp hmem with he | hm
        · exact hx he.symm
        · rcases h2 : splitFirst c t with _ | p
          · exact (ih.mp h2) hm
          · rw [h2] at h
            simp at h
    · exact splitFirst_not_mem

theorem splitCallbackData_eq (s : String) (pre : List Char) (hashOpt : Option (List Char))
    (hsplit : jsSplitColon2 s.data = (pre, hashOpt)) :
    splitCallbackData s =
      if pre.isEmpty || pre.length ≠ 3 || pre.head? ≠ some '_' then some ("", "", none)
      else
        match hashOpt with
        | none => none
        | some hash =>
          some (⟨pre⟩, ⟨hash⟩,
            if (s.data.drop (pre.length + hash.length + 2)).isEmpty then none
            else some ⟨s.data.drop (pre.length + hash.length + 2)⟩) := by
  unfold splitCallbackData
  rw [hsplit]

theorem jsSplitColon2_snd_some {cs : List Char} {a rest : List Char}
    (hsf : splitFirst ':' cs = some (a, rest)) :
    ∃ h2, jsSplitColon2 cs = (a, some h2) := by
  unfold jsSplitColon2
  rw [hsf]
  rcases hr : splitFirst ':' rest with _ | ⟨b2, r2⟩
  · exact ⟨rest, by dsimp only; rw [hr]⟩
  · exact ⟨b2, by dsimp only; rw [hr]⟩

/-- Claim C8 as stated is false: on a 3-character string that begins with an
underscore and contains no colon, such as "_cb", the prefix shape check
passes while the limit-2 split produced a single element, and reading
`hash.length` throws a TypeError (modelled as the `none` result) instead of
returning the empty triple. -/
theorem c8_counterexample : splitCallbackData "_cb" = none := by decide

/-- Claim C8 amended: when the computed prefix does not have the required
shape (3 characters starting with underscore), splitCallbackData returns the
empty/invalid triple without raising; the function is total except exactly
on 3-character underscore-initial colon-free inputs, where the original code
raises a TypeError (the `none` result). -/
theorem c8_split_malformed_amended (s : String) :
    (¬ ((jsSplitColon2 s.data).1.length = 3 ∧ (jsSplitColon2 s.data).1.head? = some '_') →
      splitCallbackData s = some ("", "", none))
    ∧ (splitCallbackData s = none ↔
        s.data.length = 3 ∧ s.data.head? = some '_' ∧ ':' ∉ s.data) := by
  rcases hsplit : jsSplitColon2 s.data with ⟨pre, hashOpt⟩
  have heq := splitCallbackData_eq s pre hashOpt hsplit
  constructor
  · intro hbad
    simp only at hbad
    have hcond : (pre.isEmpty || decide (pre.length ≠ 3) || decide (pre.head? ≠ some '_'))
        = true := by
      by_cases h3 : pre.length = 3
      · by_cases hh : pre.head? = some '_'
        · exact absurd ⟨h3, hh⟩ hbad
        · simp [hh]
      · simp [h3]
    rw [heq, if_pos hcond]
  · constructor
    · intro hnone
      rw [heq] at hnone
      by_cases hcond : (pre.isEmpty || decide (pre.length ≠ 3)
          || decide (pre.head? ≠ some '_')) = true
      · rw [if_pos hcond] at hnone
        simp at hnone
      · rw [if_neg hcond] at hnone
        have hL : pre.length = 3 := by
          by_contra hL
          exact hcond (by simp [hL])
        have hH : pre.head? = some '_' := by
          by_contra hH
          exact hcond (by simp [hH])
        rcases hsf : splitFirst ':' s.data with _ | ⟨a, rest⟩
        · have hnc : ':' ∉ s.data := splitFirst_eq_none.mp hsf
          have hpre : pre = s.data := by
            have : jsSplitColon2 s.data = (s.data, none) := by
              simp [jsSplitColon2, hsf]
            rw [this] at hsplit
            exact (Prod.mk.injEq _ _ _ _ ▸ hsplit).1.symm ▸ rfl
          rw [hpre] at hL hH
          exact ⟨hL, hH, hnc⟩
        · obtain ⟨h2, hs2⟩ := jsSplitColon2_snd_some hsf
          rw [hs2] at hsplit
          have hho : hashOpt = some h2 := by
            have := congrArg Prod.snd hsplit
            simpa using this.symm
          rw [hho] at hnone
          simp at hnone
    · intro ⟨hlen, hhead, hnc⟩
      have hsf : splitFirst ':' s.data = none := splitFirst_not_mem hnc
      have hs2 : jsSplitColon2 s.data = (s.data, none) := by
        simp [jsSplitColon2, hsf]
      rw [hs2] at hsplit
      have hpre : pre = s.data := by
        have := congrArg Prod.fst hsplit
        simpa using this.symm
      have hho : hashOpt = none := by
        have := congrArg Prod.snd hsplit
        simpa using this.symm
      rw [heq, hho, hpre]
      have hne : s.data.isEmpty = false := by
        cases hd : s.data with
        | nil => rw [hd] at hlen; simp at hlen
        | cons _ _ => rfl
      simp [hne, hlen, hhead]

/-- Witness for the amended C8 at the concrete malformed input "xyz". -/
theorem c8_witness : splitCallbackData "xyz" = some ("", "", none) :=
  (c8_split_malformed_amended "xyz").1 (by decide)

/-! ### Claim C2 -/

/-- A tree-registered example handler. -/
def fnWalkGo : JsFunction := ⟨3, "go", "async (ctx) => { await ctx.reply(msg); }"⟩

/-- A one-leaf callbacks object. -/
def treeGo : CbTree := .node [("go", .leaf fnWalkGo)]

/-- The identifier the walk derives for treeGo's leaf. -/
def goHash : String := calculateFunctionHashWithPath md5Model fnWalkGo "go"

/-- Claim C2 as stated is false: registering the very same callbacks object
a second time through cbs raises `Callback with hash … already registered` —
re-registration of the same handler is not idempotent for the tree
registration, because walk only tests whether the identifier is bound, not
whether it is bound to the same function. -/
theorem c2_counterexample :
    cbs md5Model [] treeGo
      = .ok ([(goHash, 3)], .node [("go", .leaf ⟨goHash, none⟩)])
    ∧ cbs md5Model [(goHash, 3)] treeGo
      = .error ("Callback with hash " ++ goHash ++ " already registered") :=
  ⟨rfl, rfl⟩

/-- Claim C2 amended: cb is deterministic and idempotent on the same
function (same identifier, unchanged registry) and never raises — a
DIFFERENT function hashing to the same identifier is silently rebound, not
rejected; cbs raises `… already registered` whenever the identifier is
already bound, whether by the same or by a different handler. -/
theorem c2_registration_amended (md5Hex : String → String) (reg : Registry)
    (fn fnB : JsFunction) (path : String)
    (hcoll : calculateFunctionHash md5Hex fnB = calculateFunctionHash md5Hex fn)
    (hbound : (lookupA reg
        (calculateFunctionHashWithPath md5Hex fn (stripLeadingDot path))).isSome = true) :
    (cb md5Hex (cb md5Hex reg fn).1 fn).2.originHash = (cb md5Hex reg fn).2.originHash
    ∧ (cb md5Hex (cb md5Hex reg fn).1 fn).1 = (cb md5Hex reg fn).1
    ∧ lookupA (cb md5Hex (cb md5Hex reg fn).1 fnB).1 (calculateFunctionHash md5Hex fn)
        = some fnB.fnId
    ∧ walk md5Hex reg (.leaf fn) path
        = .error ("Callback with hash "
            ++ calculateFunctionHashWithPath md5Hex fn (stripLeadingDot path)
            ++ " already registered") := by
  refine ⟨rfl, ?_, ?_, ?_⟩
  · exact setA_setA reg (calculateFunctionHash md5Hex fn) fn.fnId
  · show lookupA (setA (setA reg (calculateFunctionHash md5Hex fn) fn.fnId)
        (calculateFunctionHash md5Hex fnB) fnB.fnId) (calculateFunctionHash md5Hex fn)
      = some fnB.fnId
    rw [hcoll]
    exact lookupA_setA _ _ _
  · unfold walk
    simp [hbound]

/-- Witness for the amended C2: two distinct function objects with identical
name and source collide; a bound path identifier makes the walk raise. -/
theorem c2_witness :
    (cb md5Model (cb md5Model [(goHash, 3)] fnWalkGo).1 fnWalkGo).2.originHash
        = (cb md5Model [(goHash, 3)] fnWalkGo).2.originHash
    ∧ (cb md5Model (cb md5Model [(goHash, 3)] fnWalkGo).1 fnWalkGo).1
        = (cb md5Model [(goHash, 3)] fnWalkGo).1
    ∧ lookupA (cb md5Model (cb md5Model [(goHash, 3)] fnWalkGo).1 ⟨4, "go", fnWalkGo.source⟩).1
        (calculateFunctionHash md5Model fnWalkGo) = some 4
    ∧ walk md5Model [(goHash, 3)] (.leaf fnWalkGo) "go"
        = .error ("Callback with hash "
            ++ calculateFunctionHashWithPath md5Model fnWalkGo (stripLeadingDot "go")
            ++ " already registered") :=
  c2_registration_amended md5Model [(goHash, 3)] fnWalkGo ⟨4, "go", fnWalkGo.source⟩ "go"
    rfl (by decide)

/-! ### Claim C9 -/

/-- An anonymous example handler function. -/
def fnAnon : JsFunction := ⟨4, "", "async (ctx) => { return 1; }"⟩

/-- Claim C9 as stated is false: the identifier derived for an anonymous
function registered at the tree path user.edit.name keeps the last 12 path
characters, so it contains '.' (outside [A-Za-z0-9]); and the identifier
derived from an anonymous function's source text is fnHash.slice(12), 20
hex characters, outside the ~8-16 length bound. -/
theorem c9_counterexample :
    '.' ∈ (calculateFunctionHashWithPath md5Model fnAnon "user.edit.name").data
    ∧ (calculateFunctionHash md5Model fnAnon).data.length = 20 := by
  constructor
  · decide
  · decide

theorem str_eq_empty_of_data {t : String} (h : t.data = []) : t = "" := by
  cases t with
  | mk l => exact congrArg (fun d => (⟨d⟩ : String)) h

/-- Claim C9 amended, a precise shape characterisation under the 32-hex
digest contract: a named function's source-derived identifier is exactly 12
characters (≤ 8 name characters then ≥ 4 hex digits) and is alphanumeric
when the name is; an anonymous function's source-derived identifier is
exactly 20 hex characters; a path-derived identifier is the last
min(12, |path|) path characters followed by max(4, 16 − |fn.name|) hex
digits, so it may contain the path's dots. -/
theorem c9_identifier_shapes_amended (md5Hex : String → String) (fn : JsFunction)
    (path : String) (hmd5 : HexDigest32 md5Hex)
    (hname : fn.name ≠ "") (halnum : ∀ c ∈ fn.name.data, isAlnumChar c = true)
    (hpath : path ≠ "")
    (hpalnum : ∀ c ∈ path.data, isAlnumChar c = true ∨ c = '.') :
    ((calculateFunctionHash md5Hex fn).data.length = 12
      ∧ ∀ c ∈ (calculateFunctionHash md5Hex fn).data, isAlnumChar c = true)
    ∧ ((calculateFunctionHash md5Hex ⟨fn.fnId, "", fn.source⟩).data.length = 20
      ∧ ∀ c ∈ (calculateFunctionHash md5Hex ⟨fn.fnId, "", fn.source⟩).data, isHexChar c = true)
    ∧ ((calculateFunctionHashWithPath md5Hex fn path).data.length
        = min 12 path.data.length + max 4 (16 - fn.name.data.length)
      ∧ ∀ c ∈ (calculateFunctionHashWithPath md5Hex fn path).data,
          isAlnumChar c = true ∨ c = '.') := by
  obtain ⟨hlen32, hhex⟩ := hmd5 fn.source
  obtain ⟨hplen32, hphex⟩ := hmd5 path
  have hnlen : 1 ≤ fn.name.data.length := by
    by_contra h
    push_neg at h
    have hd : fn.name.data = [] := by
      cases hl : fn.name.data with
      | nil => rfl
      | cons a t => rw [hl] at h; simp at h
    exact hname (str_eq_empty_of_data hd)
  have e1 : calculateFunctionHash md5Hex fn
      = ⟨fn.name.data.take 8
          ++ (md5Hex fn.source).data.take (max 4 (12 - fn.name.data.length))⟩ := by
    unfold calculateFunctionHash
    dsimp only
    simp only [if_pos hname]
  have e2 : calculateFunctionHash md5Hex ⟨fn.fnId, "", fn.source⟩
      = ⟨(md5Hex fn.source).data.drop 12⟩ := by
    simp [calculateFunctionHash]
  have e3 : calculateFunctionHashWithPath md5Hex fn path
      = ⟨path.data.drop (path.data.length - 12)
          ++ (md5Hex path).data.take (max 4 (16 - fn.name.data.length))⟩ := by
    unfold calculateFunctionHashWithPath
    dsimp only
    simp only [if_pos hpath]
  refine ⟨⟨?_, ?_⟩, ⟨?_, ?_⟩, ?_, ?_⟩
  · rw [e1]
    show (fn.name.data.take 8
        ++ (md5Hex fn.source).data.take (max 4 (12 - fn.name.data.length))).length = 12
    rw [List.length_append, List.length_take, List.length_take]
    omega
  · intro c hc
    rw [e1] at hc
    replace hc : c ∈ fn.name.data.take 8
        ++ (md5Hex fn.source).data.take (max 4 (12 - fn.name.data.length)) := hc
    rcases List.mem_append.mp hc with hm | hm
    · exact halnum c (List.mem_of_mem_take hm)
    · exact hex_alnum (hhex c (List.mem_of_mem_take hm))
  · rw [e2]
    show ((md5Hex fn.source).data.drop 12).length = 20
    rw [List.length_drop]
    omega
  · intro c hc
    rw [e2] at hc
    replace hc : c ∈ (md5Hex fn.source).data.drop 12 := hc
    exact hhex c (List.mem_of_mem_drop hc)
  · rw [e3]
    show (path.data.drop (path.data.length - 12)
        ++ (md5Hex path).data.take (max 4 (16 - fn.name.data.length))).length
      = min 12 path.data.length + max 4 (16 - fn.name.data.length)
    rw [List.length_append, List.length_drop, List.length_take]
    omega
  · intro c hc
    rw [e3] at hc
    replace hc : c ∈ path.data.drop (path.data.length - 12)
        ++ (md5Hex path).data.take (max 4 (16 - fn.name.data.length)) := hc
    rcases List.mem_append.mp hc with hm | hm
    · exact hpalnum c (List.mem_of_mem_drop hm)
    · exact Or.inl (hex_alnum (hphex c (List.mem_of_mem_take hm)))

/-- Witness for the amended C9 at a concrete named function and dotted
path. -/
theorem c9_witness :
    ((calculateFunctionHash md5Model fnGreet).data.length = 12
      ∧ ∀ c ∈ (calculateFunctionHash md5Model fnGreet).data, isAlnumChar c = true)
    ∧ ((calculateFunctionHash md5Model ⟨fnGreet.fnId, "", fnGreet.source⟩).data.length = 20
      ∧ ∀ c ∈ (calculateFunctionHash md5Model ⟨fnGreet.fnId, "", fnGreet.source⟩).data,
          isHexChar c = true)
    ∧ ((calculateFunctionHashWithPath md5Model fnGreet "user.edit.name").data.length
        = min 12 "user.edit.name".data.length + max 4 (16 - fnGreet.name.data.length)
      ∧ ∀ c ∈ (calculateFunctionHashWithPath md5Model fnGreet "user.edit.name").data,
          isAlnumChar c = true ∨ c = '.') :=
  c9_identifier_shapes_amended md5Model fnGreet "user.edit.name" md5Model_hex
    (by decide) (by decide) (by decide) (by decide)

/-! ### Claim C3 -/

/-- Claim C3 as stated is false: a token whose identifier is absent from the
registry makes executeCallback throw `Callback … not found in registry`, and
the callback_query middleware does not catch it — the outcome is a raised
error, not a fall-through to next(); likewise for a `_ch` token whose
session indirection entry is missing. -/
theorem c3_counterexample :
    (callbackQueryHandler hrunSilent [] initialCallbackData (some "_cb:zzzz")).2.1
      = .raised (.unknownCallback "zzzz")
    ∧ (callbackQueryHandler hrunSilent [] initialCallbackData (some "_ch:deadbeef")).2.1
      = .raised (.sessionNotFound "deadbeef")
    ∧ (callbackQueryHandler hrunSilent [] initialCallbackData (some "_cb:zzzz")).2.1
      ≠ .passedNext := by
  refine ⟨rfl, rfl, by decide⟩

/-- Claim C3 amended: a dispatch-time lookup failure (UnknownCallback or
SessionCallbackNotFound) is thrown by executeCallback, and the
callback_query middleware neither catches it nor falls through: the error
propagates as the middleware's outcome and next() is not invoked. -/
theorem c3_lookup_error_amended (hrun : HandlerRun) (registry : Registry)
    (sess s1 : CallbackSessionData) (d : String) (e : ExecErr)
    (calls : List Invocation)
    (hcb : isCallbackData (some d) = true)
    (hexec : executeCallback hrun registry sess d [] = (s1, .threw e, calls)) :
    callbackQueryHandler hrun registry sess (some d) = (s1, .raised e, calls) := by
  unfold callbackQueryHandler
  rw [if_pos hcb]
  dsimp only
  rw [hexec]

/-- Witness for the amended C3 at a stale direct token against an empty
registry. -/
theorem c3_witness :
    callbackQueryHandler hrunSilent [] initialCallbackData (some "_cb:zzzz")
      = (initialCallbackData, .raised (.unknownCallback "zzzz"), []) :=
  c3_lookup_error_amended hrunSilent [] initialCallbackData initialCallbackData
    "_cb:zzzz" (.unknownCallback "zzzz") [] (by decide) rfl

/-! ### Claim C4 -/

/-- Claim C4 as stated is false in its sharing clause: the session-params
key is a hash of the arguments JSON alone, so two stores with byte-identical
argument JSON but different identifiers share one entry, and the second
store overwrites it — after storing `_cb:bbbb:[0]`, the `_ch` token that the
earlier store of `_cb:aaaa:[0]` returned (the same string) now dispatches to
handler bbbb: an observable difference. -/
theorem c4_counterexample :
    storeCallbackData md5Model initialCallbackData "_cb:aaaa:[0]"
      = some ("_ch:" ++ generateHash md5Model "[0]",
          { initialCallbackData with
              params := [(generateHash md5Model "[0]", ⟨"aaaa", "[0]"⟩)] })
    ∧ storeCallbackData md5Model
        { initialCallbackData with
            params := [(generateHash md5Model "[0]", ⟨"aaaa", "[0]"⟩)] }
        "_cb:bbbb:[0]"
      = some ("_ch:" ++ generateHash md5Model "[0]",
          { initialCallbackData with
              params := [(generateHash md5Model "[0]", ⟨"bbbb", "[0]"⟩)] })
    ∧ (executeCallback hrunSilent [("aaaa", 1), ("bbbb", 2)]
        { initialCallbackData with
            params := [(generateHash md5Model "[0]", ⟨"bbbb", "[0]"⟩)] }
        ("_ch:" ++ generateHash md5Model "[0]") []).2.2
      = [⟨2, [.num 0], []⟩] :=
  ⟨rfl, rfl, rfl⟩

/-- The short key storeCallbackData derives for an argument tuple. -/
def overflowKey (md5Hex : String → String) (A : List Json) : String :=
  generateHash md5Hex (jsonStringify (.arr A))

/-- The { hash, params } entry storeCallbackData writes for identifier
`hstr` and argument tuple A. -/
def overflowEntry (hstr : String) (A : List Json) : SessionEntry :=
  ⟨hstr, jsonStringify (.arr A)⟩

/-- The session after storeCallbackData stored the overflow entry. -/
def overflowSess (md5Hex : String → String) (sess : CallbackSessionData)
    (hstr : String) (A : List Json) : CallbackSessionData :=
  { sess with params := setA sess.params (overflowKey md5Hex A) (overflowEntry hstr A) }

/-- Claim C4 amended: storeCallbackData writes { identifier, argumentsJSON }
keyed by the 8-hex-character hash of the arguments JSON alone and returns
`_ch:<shortHash>`; executing the returned token invokes the original handler
with exactly the original arguments; and a second store of the
byte-identical TOKEN (same identifier and JSON) leaves the session
observably unchanged — sharing without observable difference holds when the
identifiers also coincide, while byte-identical JSON under a different
identifier overwrites the shared entry and redirects earlier tokens (see the
counterexample). -/
theorem c4_store_overflow_amended (md5Hex : String → String) (hrun : HandlerRun)
    (reg : Registry) (sess : CallbackSessionData) (hstr : String) (hid : Nat)
    (A : List Json)
    (hmd5 : HexDigest32 md5Hex) (hcol : ':' ∉ hstr.data) (hA : A ≠ [])
    (hwf : wfItems A = true) (hlook : lookupA reg hstr = some hid) :
    storeCallbackData md5Hex sess (toCallbackData ⟨hstr, some A⟩)
      = some ("_ch:" ++ overflowKey md5Hex A, overflowSess md5Hex sess hstr A)
    ∧ ((overflowKey md5Hex A).data.length = 8
      ∧ ∀ c ∈ (overflowKey md5Hex A).data, isHexChar c = true)
    ∧ executeCallback hrun reg (overflowSess md5Hex sess hstr A)
        ("_ch:" ++ overflowKey md5Hex A) []
      = runHandler hrun hid A [] (overflowSess md5Hex sess hstr A)
    ∧ storeCallbackData md5Hex (overflowSess md5Hex sess hstr A)
        (toCallbackData ⟨hstr, some A⟩)
      = some ("_ch:" ++ overflowKey md5Hex A, overflowSess md5Hex sess hstr A) := by
  obtain ⟨hklen, hkhex⟩ := hmd5 (jsonStringify (.arr A))
  have hAe : A.isEmpty = false := by
    cases A with
    | nil => exact absurd rfl hA
    | cons _ _ => rfl
  have hsplit := split_toCallbackData hstr A hcol
  rw [hAe] at hsplit
  simp only [Bool.false_eq_true, if_false] at hsplit
  have hkcol : ':' ∉ (overflowKey md5Hex A).data := by
    intro hm
    have hm2 : ':' ∈ (md5Hex (jsonStringify (.arr A))).data :=
      List.mem_of_mem_take hm
    exact hex_ne_colon (hkhex ':' hm2) rfl
  have hchdata : ("_ch:" ++ overflowKey md5Hex A).data
      = '_' :: 'c' :: 'h' :: ':' :: (overflowKey md5Hex A).data := by
    rw [strData_append]
    have h4 : ("_ch:" : String).data = ['_', 'c', 'h', ':'] := by decide
    rw [h4]
    rfl
  have hchsplit := splitCallbackData_noParams 'c' 'h' _
    (overflowKey md5Hex A).data hchdata (by decide) (by decide) hkcol
  refine ⟨?_, ⟨?_, ?_⟩, ?_, ?_⟩
  · unfold storeCallbackData
    rw [hsplit]
    rfl
  · show ((md5Hex (jsonStringify (.arr A))).data.take 8).length = 8
    rw [List.length_take]
    omega
  · intro c hc
    exact hkhex c (List.mem_of_mem_take hc)
  · unfold executeCallback
    rw [hchsplit]
    dsimp only
    have hpre : (⟨['_', 'c', 'h']⟩ : String) = "_ch" := by decide
    have hget : (⟨(overflowKey md5Hex A).data⟩ : String) = overflowKey md5Hex A := by
      cases hgen : overflowKey md5Hex A
      rfl
    rw [hpre, hget]
    rw [if_pos rfl]
    have hlk : lookupA (overflowSess md5Hex sess hstr A).params (overflowKey md5Hex A)
        = some (overflowEntry hstr A) := lookupA_setA _ _ _
    rw [hlk]
    unfold execLookup overflowEntry
    dsimp only
    rw [hlook]
    have hparse : parseJson (jsonStringify (.arr A)) = some (.arr A) :=
      parseJson_stringify _
    rw [hparse]
    cases A with
    | nil => exact absurd rfl hA
    | cons j js => rfl
  · unfold storeCallbackData
    rw [hsplit]
    show some ("_ch:" ++ overflowKey md5Hex A, { sess with params := setA (setA sess.params (overflowKey md5Hex A) (overflowEntry hstr A)) (overflowKey md5Hex A) (overflowEntry hstr A) }) = some ("_ch:" ++ overflowKey md5Hex A, overflowSess md5Hex sess hstr A)
    rw [setA_setA]
    rfl

/-- Witness for the amended C4 at a concrete registered handler and
colon-containing arguments. -/
theorem c4_witness :
    storeCallbackData md5Model initialCallbackData (toCallbackData ⟨"abcd", some argsColon⟩)
      = some ("_ch:" ++ overflowKey md5Model argsColon,
          overflowSess md5Model initialCallbackData "abcd" argsColon)
    ∧ ((overflowKey md5Model argsColon).data.length = 8
      ∧ ∀ c ∈ (overflowKey md5Model argsColon).data, isHexChar c = true)
    ∧ executeCallback hrunSilent [("abcd", 5)]
        (overflowSess md5Model initialCallbackData "abcd" argsColon)
        ("_ch:" ++ overflowKey md5Model argsColon) []
      = runHandler hrunSilent 5 argsColon []
          (overflowSess md5Model initialCallbackData "abcd" argsColon)
    ∧ storeCallbackData md5Model (overflowSess md5Model initialCallbackData "abcd" argsColon)
        (toCallbackData ⟨"abcd", some argsColon⟩)
      = some ("_ch:" ++ overflowKey md5Model argsColon,
          overflowSess md5Model initialCallbackData "abcd" argsColon) :=
  c4_store_overflow_amended md5Model hrunSilent [("abcd", 5)] initialCallbackData
    "abcd" 5 argsColon md5Model_hex (by decide) (by simp [argsColon]) (by decide) rfl

/-! ### Claim C5 -/

/-- Claim C5: calling wait while a previous Wait State exists leaves exactly
one live Wait State — the newly created one — and the previous state's
anchor-message deletion is attempted (the clear runs before the new state is
stored); the wait slot is an Option, so wait states never stack. -/
theorem c5_wait_single_pendency (tag : Nat) (sess : CallbackSessionData)
    (slot : WaitSlot) (filter : FilterArg) (handler : CurriedCallback)
    (opts : Option WaitOptions)
    (hw : sess.wait = some slot) (hmid : slot.st.messageId ≠ 0) :
    (wait tag sess filter handler opts).1.wait
      = some ⟨tag, mkWaitStateData filter handler opts⟩
    ∧ (wait tag sess filter handler opts).2
      = [Effect.deleteMessages [slot.st.messageId]] := by
  unfold wait clearWaitState
  rw [hw]
  simp [hmid]

/-- A concrete live wait state with anchor message 7. -/
def waitSlot7 : WaitSlot :=
  ⟨0, { messageId := 7, cancelKeyword := "/cancelwait", filter := some ["message:text"], handlerId := "_cb:h0", timeoutId := 0 }⟩

/-- A session holding waitSlot7. -/
def sessWith7 : CallbackSessionData := { initialCallbackData with wait := some waitSlot7 }

/-- Witness for C5: a second wait replaces a live wait state with anchor
message 7 and attempts its deletion. -/
theorem c5_witness :
    (wait 1 sessWith7 (.many ["message:text"]) ⟨"h0", none⟩ none).1.wait
      = some ⟨1, mkWaitStateData (.many ["message:text"]) ⟨"h0", none⟩ none⟩
    ∧ (wait 1 sessWith7 (.many ["message:text"]) ⟨"h0", none⟩ none).2
      = [Effect.deleteMessages [7]] :=
  c5_wait_single_pendency 1 sessWith7 waitSlot7
    (.many ["message:text"]) ⟨"h0", none⟩ none rfl (by decide)

/-! ### Claim C6 -/

/-- Claim C6: after a wait filter match (non-cancel text present, stored
filter matched, handler token non-empty), if the invoked handler resolves to
exactly false the wait protocol changes nothing beyond what the handler did
and reports the update handled; on any other resolution — a thrown error
included, since the catch turns it into true — the Wait State is cleared
exactly when the state present after the invocation is the same object
(same allocation tag) that was read at entry; a state the handler re-installed
(different tag) is left in place, as is an absent one. -/
theorem c6_wait_resolution (hrun : HandlerRun) (reg : Registry) (u : Update)
    (sess s1 : CallbackSessionData) (slot : WaitSlot) (t : String)
    (out : ExecOutcome) (calls : List Invocation)
    (hw : sess.wait = some slot)
    (htext : extractText u = some t)
    (hnc : jsToLower t ≠ slot.st.cancelKeyword)
    (hfs : ∀ fs, slot.st.filter = some fs → hasAny u fs = true)
    (hhid : slot.st.handlerId ≠ "")
    (hexec : executeCallback hrun reg sess slot.st.handlerId [some t] = (s1, out, calls)) :
    (out = .ret .retFalse → handleWaitResponse hrun reg u sess = ⟨s1, [], calls, true⟩)
    ∧ (out ≠ .ret .retFalse →
        (∀ slot', s1.wait = some slot' → slot'.tag = slot.tag →
          handleWaitResponse hrun reg u sess
            = ⟨{ s1 with wait := none },
                (if slot'.st.messageId ≠ 0
                 then [Effect.deleteMessages [slot'.st.messageId]] else []),
                calls, true⟩)
        ∧ (∀ slot', s1.wait = some slot' → slot'.tag ≠ slot.tag →
            handleWaitResponse hrun reg u sess = ⟨s1, [], calls, true⟩)
        ∧ (s1.wait = none → handleWaitResponse hrun reg u sess = ⟨s1, [], calls, true⟩)) := by
  have hch : (decide (t ≠ "") && decide (jsToLower t = slot.st.cancelKeyword)) = false := by
    simp [hnc]
  have hfm : (match slot.st.filter with
      | some fs => !hasAny u fs
      | none => false) = false := by
    cases hf : slot.st.filter with
    | none => rfl
    | some fs => simp [hfs fs hf]
  have hmain : handleWaitResponse hrun reg u sess
      = (if catchTrue out = JsRet.retFalse
         then ⟨s1, [], calls, true⟩ else clearIfSame s1 slot.tag calls) := by
    unfold handleWaitResponse
    rw [hw]
    dsimp only
    rw [htext]
    simp only [hch, hfm, Bool.false_eq_true, if_false, hexec]
    rw [if_pos hhid]
  constructor
  · intro hout
    subst hout
    rw [hmain]
    rfl
  · intro hout
    have hres : catchTrue out ≠ JsRet.retFalse := by
      cases out with
      | ret v =>
        intro hv
        apply hout
        rw [show v = JsRet.retFalse from hv]
      | threw e => simp [catchTrue]
    rw [hmain, if_neg hres]
    refine ⟨?_, ?_, ?_⟩
    · intro slot' hs1 htag
      unfold clearIfSame clearWaitState
      rw [hs1]
      simp [htag]
    · intro slot' hs1 htag
      unfold clearIfSame
      rw [hs1]
      simp [htag]
    · intro hs1
      unfold clearIfSame
      rw [hs1]

/-- A concrete inbound text update. -/
def updHello : Update := ⟨["message:text"], some "hello", none⟩

/-- Witness for C6: a falsy (non-false) handler resolution on an unchanged
session clears the wait state that is still the same object. -/
theorem c6_witness :
    (ExecOutcome.ret JsRet.retFalsy = .ret .retFalse →
      handleWaitResponse hrunSilent [("h0", 9)] updHello sessWith7
        = ⟨sessWith7, [], [⟨9, [], [some "hello"]⟩], true⟩)
    ∧ (ExecOutcome.ret JsRet.retFalsy ≠ .ret .retFalse →
        (∀ slot', sessWith7.wait = some slot' → slot'.tag = waitSlot7.tag →
          handleWaitResponse hrunSilent [("h0", 9)] updHello sessWith7
            = ⟨{ sessWith7 with wait := none },
                (if slot'.st.messageId ≠ 0
                 then [Effect.deleteMessages [slot'.st.messageId]] else []),
                [⟨9, [], [some "hello"]⟩], true⟩)
        ∧ (∀ slot', sessWith7.wait = some slot' → slot'.tag ≠ waitSlot7.tag →
            handleWaitResponse hrunSilent [("h0", 9)] updHello sessWith7
              = ⟨sessWith7, [], [⟨9, [], [some "hello"]⟩], true⟩)
        ∧ (sessWith7.wait = none →
            handleWaitResponse hrunSilent [("h0", 9)] updHello sessWith7
              = ⟨sessWith7, [], [⟨9, [], [some "hello"]⟩], true⟩)) :=
  c6_wait_resolution hrunSilent [("h0", 9)] updHello sessWith7 sessWith7 waitSlot7
    "hello" (.ret .retFalsy) [⟨9, [], [some "hello"]⟩]
    rfl rfl (by decide) (by intro fs hfs; cases hfs; rfl) (by decide) rfl

/-! ### Claim C7 -/

/-- The session produced by a wait call that omitted the cancelKeyword
option. -/
def sessDefaultWait : CallbackSessionData :=
  (wait 0 initialCallbackData (.many ["message:text"]) ⟨"h0", none⟩ none).1

/-- A cancel attempt with the spec's default keyword, uppercased. -/
def updCancelUpper : Update := ⟨["message:text"], some "/CANCEL", none⟩

/-- Claim C7 as stated is false: the default cancel keyword in wait.ts is
'/cancelwait', not '/cancel', so an inbound "/CANCEL" against a wait that
omitted the option does not match the keyword — the text is forwarded to
the target handler (here one returning false, which also leaves the Wait
State in place). -/
theorem c7_counterexample :
    (handleWaitResponse hrunFalse [("h0", 9)] updCancelUpper sessDefaultWait).calls
      = [⟨9, [], [some "/CANCEL"]⟩]
    ∧ (handleWaitResponse hrunFalse [("h0", 9)] updCancelUpper sessDefaultWait).sess.wait
      ≠ none :=
  ⟨rfl, by decide⟩

/-- Claim C7 amended: a wait call that omits the cancelKeyword option stores
the lowercased default '/cancelwait'; a supplied non-empty keyword is stored
lowercased; and an inbound text whose lowercasing equals the stored keyword
clears the Wait State (attempting its anchor deletion) and forwards nothing
to the target handler — a case-insensitive exact match, with default value
'/cancelwait'. -/
theorem c7_cancel_amended (filter : FilterArg) (handler : CurriedCallback)
    (opts : Option WaitOptions) (K : String) (mid : Option Nat) (tms : Option Nat)
    (hrun : HandlerRun) (reg : Registry) (u2 : Update) (sess2 : CallbackSessionData)
    (slot : WaitSlot) (t : String)
    (hkw : (match opts with | some o => o.cancelKeyword | none => none) = none)
    (hK : K ≠ "")
    (hw2 : sess2.wait = some slot)
    (htext2 : extractText u2 = some t)
    (ht : t ≠ "")
    (hmatch : jsToLower t = slot.st.cancelKeyword) :
    (mkWaitStateData filter handler opts).cancelKeyword = "/cancelwait"
    ∧ (mkWaitStateData filter handler (some ⟨mid, some K, tms⟩)).cancelKeyword = jsToLower K
    ∧ handleWaitResponse hrun reg u2 sess2
      = ⟨{ sess2 with wait := none },
          (if slot.st.messageId ≠ 0
           then [Effect.deleteMessages [slot.st.messageId]] else []),
          [], true⟩ := by
  refine ⟨?_, ?_, ?_⟩
  · cases opts with
    | none => rfl
    | some o =>
      have ho : o.cancelKeyword = none := by simpa using hkw
      simp [mkWaitStateData, ho]
      rfl
  · simp [mkWaitStateData, hK]
  · unfold handleWaitResponse
    rw [hw2]
    dsimp only
    rw [htext2]
    have hch : (decide (t ≠ "") && decide (jsToLower t = slot.st.cancelKeyword)) = true := by
      simp [ht, hmatch]
    simp only [hch, if_true]
    unfold clearWaitState
    rw [hw2]

/-- Witness for the amended C7: "/CancelWait" cancels a default wait and the
handler is never invoked. -/
theorem c7_witness :
    (mkWaitStateData (.many ["message:text"]) ⟨"h0", none⟩ none).cancelKeyword
      = "/cancelwait"
    ∧ (mkWaitStateData (.many ["message:text"]) ⟨"h0", none⟩
        (some ⟨none, some "/Stop", none⟩)).cancelKeyword = jsToLower "/Stop"
    ∧ handleWaitResponse hrunFalse [("h0", 9)]
        ⟨["message:text"], some "/CancelWait", none⟩ sessDefaultWait
      = ⟨{ sessDefaultWait with wait := none },
          (if (mkWaitStateData (.many ["message:text"]) ⟨"h0", none⟩ none).messageId ≠ 0
           then [Effect.deleteMessages
              [(mkWaitStateData (.many ["message:text"]) ⟨"h0", none⟩ none).messageId]]
           else []),
          [], true⟩ :=
  c7_cancel_amended (.many ["message:text"]) ⟨"h0", none⟩ none "/Stop" none none
    hrunFalse [("h0", 9)] ⟨["message:text"], some "/CancelWait", none⟩ sessDefaultWait
    ⟨0, mkWaitStateData (.many ["message:text"]) ⟨"h0", none⟩ none⟩ "/CancelWait"
    rfl (by decide) rfl rfl (by decide) (by decide)

/-! ### Claim C10 -/

/-- Claim C10: in the plain-text dispatch path, a non-empty inbound text
that exactly matches a (truthy) entry of the session reply table has the
stored callback data executed, and processing falls through to next() if
and only if that execution resolves to exactly false (a non-false
resolution stops; a thrown error is raised, which is no resolution);
when no entry matches, next() is invoked and the session — the reply table
included — is left unchanged with no invocation made. -/
theorem c10_handle_text_dispatch (hrun : HandlerRun) (reg : Registry)
    (sess s1 : CallbackSessionData) (t cd : String) (out : ExecOutcome)
    (calls : List Invocation)
    (ht : t ≠ "") (hmatch : lookupA sess.reply t = some cd) (hcd : cd ≠ "")
    (hexec : executeCallback hrun reg sess cd [] = (s1, out, calls)) :
    (out = .ret .retFalse → handleText hrun reg sess (some t) = (s1, .passedNext, calls))
    ∧ (∀ v, out = .ret v → v ≠ .retFalse →
        handleText hrun reg sess (some t) = (s1, .handledStop, calls))
    ∧ (∀ e, out = .threw e → handleText hrun reg sess (some t) = (s1, .raised e, calls))
    ∧ (∀ t', lookupA sess.reply t' = none →
        handleText hrun reg sess (some t') = (sess, .passedNext, [])) := by
  have hstep : ∀ s1' out' calls',
      executeCallback hrun reg sess cd [] = (s1', out', calls') →
      handleText hrun reg sess (some t)
        = (match out' with
           | .ret v => if v = .retFalse then (s1', MWResult.passedNext, calls')
               else (s1', MWResult.handledStop, calls')
           | .threw e => (s1', MWResult.raised e, calls')) := by
    intro s1' out' calls' hx
    unfold handleText
    dsimp only
    rw [if_neg ht, hmatch]
    dsimp only
    rw [if_neg hcd, hx]
    cases out' with
    | ret v => rfl
    | threw e => rfl
  refine ⟨?_, ?_, ?_, ?_⟩
  · intro hout
    rw [hstep s1 out calls hexec, hout]
    rfl
  · intro v hout hv
    rw [hstep s1 out calls hexec, hout]
    dsimp only
    rw [if_neg hv]
  · intro e hout
    rw [hstep s1 out calls hexec, hout]
  · intro t' hlook
    unfold handleText
    dsimp only
    by_cases ht' : t' = ""
    · rw [if_pos ht']
    · rw [if_neg ht', hlook]

/-- A session whose reply table correlates the button label Hi with a
token. -/
def sessReplyHi : CallbackSessionData :=
  { initialCallbackData with reply := [("Hi", "_cb:h0")] }

/-- Witness for C10: a matched label whose handler returns exactly false
falls through to next(), and an unmatched label passes next() with the
session unchanged. -/
theorem c10_witness :
    (ExecOutcome.ret JsRet.retFalse = .ret .retFalse →
      handleText hrunFalse [("h0", 9)] sessReplyHi (some "Hi")
        = (sessReplyHi, .passedNext, [⟨9, [], []⟩]))
    ∧ (∀ v, ExecOutcome.ret JsRet.retFalse = .ret v → v ≠ .retFalse →
        handleText hrunFalse [("h0", 9)] sessReplyHi (some "Hi")
          = (sessReplyHi, .handledStop, [⟨9, [], []⟩]))
    ∧ (∀ e, ExecOutcome.ret JsRet.retFalse = .threw e →
        handleText hrunFalse [("h0", 9)] sessReplyHi (some "Hi")
          = (sessReplyHi, .raised e, [⟨9, [], []⟩]))
    ∧ (∀ t', lookupA sessReplyHi.reply t' = none →
        handleText hrunFalse [("h0", 9)] sessReplyHi (some t')
          = (sessReplyHi, .passedNext, [])) :=
  c10_handle_text_dispatch hrunFalse [("h0", 9)] sessReplyHi sessReplyHi "Hi" "_cb:h0"
    (.ret .retFalse) [⟨9, [], []⟩] (by decide) rfl (by decide) rfl
